import Mathlib

/-!
Verification of the PDF annotation compositing engine
(`backend/app/services/tools/pdf_filler_service.py`, class `PDFFillerService`).

The service manipulates Python dictionaries (annotation records), so the
embedding works over a JSON-like value type `JVal`; Python numbers are
modelled as rationals.  Operations that can raise in Python return
`Except PyErr`.  The PyMuPDF (`fitz`) backend is modelled by the trace of
drawing calls the service issues against it (`DrawOp`); base64 payloads are
carried opaquely and byte-level PDF serialization/compaction is abstracted
to the structured document (`FDoc`) the code built before `doc.save`.
-/

namespace PdfFiller

/-- A JSON-like value: the universe the service's annotation dictionaries,
their fields, freehand paths and path points live in. -/
inductive JVal where
  | num (q : ℚ)
  | str (s : String)
  | bool (b : Bool)
  | arr (xs : List JVal)
  | obj (fields : List (String × JVal))
  | null

/-- Python exceptions that the translated code can raise. -/
inductive PyErr where
  | keyError (k : String)
  | typeError (msg : String)
  | attributeError (msg : String)
  | zeroDivisionError
  deriving DecidableEq, Repr

/-- Rewrite lemma: binding an `Except.ok`. -/
theorem ok_bind {ε α β : Type} (a : α) (f : α → Except ε β) :
    (Except.ok a : Except ε α) >>= f = f a := rfl

/-- Rewrite lemma: binding an `Except.error`. -/
theorem error_bind {ε α β : Type} (e : ε) (f : α → Except ε β) :
    (Except.error e : Except ε α) >>= f = .error e := rfl

/-- Rewrite lemma: `pure` on `Except` is `Except.ok`. -/
theorem pure_eq_ok {ε α : Type} (a : α) : (pure a : Except ε α) = .ok a := rfl

/-- `List.lookup` on a cons, phrased with `if` so that literal string keys
reduce by `simp`. -/
theorem lookup_cons {β : Type} (a k : String) (v : β) (l : List (String × β)) :
    List.lookup a ((k, v) :: l) = if a = k then some v else List.lookup a l := by
  simp only [List.lookup]
  by_cases h : a = k
  · simp [h]
  · have hb : (a == k) = false := beq_eq_false_iff_ne.mpr h
    simp [h, hb]

/-- `mapM` specialized to `Except`, with structural equations. -/
def exMapM {α β : Type} (f : α → Except PyErr β) : List α → Except PyErr (List β)
  | [] => .ok []
  | x :: xs => do
    let y ← f x
    let ys ← exMapM f xs
    .ok (y :: ys)

/-- Python `d[k]` subscripting with a string key, as in `point["x"]`:
`KeyError` when the key is absent, `TypeError` when the value is not a dict. -/
def getItem : JVal → String → Except PyErr JVal
  | .obj fs, k => (fs.lookup k).elim (.error (.keyError k)) .ok
  | _, _ => .error (.typeError "object is not subscriptable")

/-- Python `d.get(k, default)` on a dict given as a field list. -/
def dictGet (fs : List (String × JVal)) (k : String) (dflt : JVal) : JVal :=
  (fs.lookup k).getD dflt

/-- Python `d[k] = v` on a dict: replace the binding in place, append if new. -/
def setField : List (String × JVal) → String → JVal → List (String × JVal)
  | [], k, v => [(k, v)]
  | (k', v') :: rest, k, v =>
    if k' = k then (k, v) :: rest else (k', v') :: setField rest k v

/-- Python `d.copy()` as used on annotation/path dicts: `AttributeError`
when the value is not a dict. -/
def copyDict : JVal → Except PyErr (List (String × JVal))
  | .obj fs => .ok fs
  | _ => .error (.attributeError "copy")

/-- Python iteration `for x in v` as it occurs in `_normalize_annotations`:
lists yield their elements, strings their one-character substrings, dicts
their keys; other values raise `TypeError`. -/
def iterElems : JVal → Except PyErr (List JVal)
  | .arr xs => .ok xs
  | .str s => .ok (s.toList.map (fun c => .str (String.mk [c])))
  | .obj fs => .ok (fs.map (fun kv => .str kv.1))
  | _ => .error (.typeError "object is not iterable")

/-- Python `v / canvas_scale` for a float scale: numbers (and booleans,
which are numeric in Python) divide; a zero scale raises
`ZeroDivisionError`; any other operand raises `TypeError`. -/
def divByScale (v : JVal) (s : ℚ) : Except PyErr JVal :=
  if s = 0 then .error .zeroDivisionError
  else
    match v with
    | .num q => .ok (.num (q / s))
    | .bool b => .ok (.num ((if b then (1 : ℚ) else 0) / s))
    | _ => .error (.typeError "unsupported operand type for /")

/-- One `if k in new_ann: new_ann[k] = new_ann[k] / canvas_scale` step of
`_normalize_annotations`. -/
def scaleField (s : ℚ) (fs : List (String × JVal)) (k : String) :
    Except PyErr (List (String × JVal)) :=
  (fs.lookup k).elim (.ok fs)
    (fun v => do
      let v' ← divByScale v s
      .ok (setField fs k v'))

/-- The sequence of `if ... in new_ann` scaling steps of
`_normalize_annotations` (source lines 149-174), applied in source order. -/
def scaleFields (s : ℚ) : List String → List (String × JVal) →
    Except PyErr (List (String × JVal))
  | [], fs => .ok fs
  | k :: ks, fs => do
    let fs' ← scaleField s fs k
    scaleFields s ks fs'

/-- The scalar length fields `_normalize_annotations` divides by the scale,
in the order the source checks them (lines 149-174). -/
def scaledKeys : List String :=
  ["x", "y", "width", "height", "fontSize", "strokeWidth", "x1", "y1", "x2", "y2"]

/-- One freehand path point (source lines 183-187): builds the fresh dict
`{"x": point["x"] / canvas_scale, "y": point["y"] / canvas_scale}`,
evaluated in source order. -/
def normPoint (s : ℚ) (pt : JVal) : Except PyErr JVal := do
  let px ← getItem pt "x"
  let qx ← divByScale px s
  let py ← getItem pt "y"
  let qy ← divByScale py s
  .ok (.obj [("x", qx), ("y", qy)])

/-- One freehand sub-path (source lines 179-189): `path.copy()`, then the
`points` list is normalized element-wise when present. -/
def normPath (s : ℚ) (p : JVal) : Except PyErr JVal := do
  let pf ← copyDict p
  (pf.lookup "points").elim (.ok (.obj pf))
    (fun pv => do
      let pts ← iterElems pv
      let pts' ← exMapM (normPoint s) pts
      .ok (.obj (setField pf "points" (.arr pts'))))

/-- One annotation of `_normalize_annotations` (source lines 145-192):
copy the record, divide every present scalar length field by the scale,
then normalize the freehand `paths` structure when present. -/
def normAnn (s : ℚ) (a : JVal) : Except PyErr JVal := do
  let fs ← copyDict a
  let fs' ← scaleFields s scaledKeys fs
  (fs'.lookup "paths").elim (.ok (.obj fs'))
    (fun pv => do
      let ps ← iterElems pv
      let ps' ← exMapM (normPath s) ps
      .ok (.obj (setField fs' "paths" (.arr ps'))))

/-- `_normalize_annotations(annotations, canvas_scale)` (source lines
135-194): the identity fast path for `canvas_scale == 1.0`, otherwise the
per-annotation normalization mapped over the list. -/
def normalizeAnnotations (anns : List JVal) (s : ℚ) : Except PyErr (List JVal) :=
  if s = 1 then .ok anns else exMapM (normAnn s) anns

/-- View a `JVal` as a list (Python `list`), if it is one. -/
def asArr : JVal → Option (List JVal)
  | .arr xs => some xs
  | _ => none

/-- View a `JVal` as a dict field list, if it is one. -/
def asObjFields : JVal → Option (List (String × JVal))
  | .obj fs => some fs
  | _ => none

/-- Accessor `ann["paths"][i]["points"][j]` on an annotation's field list,
used to state the freehand-point part of the linearity law. -/
def pathPoint (fs : List (String × JVal)) (i j : ℕ) : Option JVal := do
  let pv ← fs.lookup "paths"
  let ps ← asArr pv
  let p ← ps.get? i
  let pf ← asObjFields p
  let ptsv ← pf.lookup "points"
  let pts ← asArr ptsv
  pts.get? j

/-! ### Dictionary and traversal lemmas -/

theorem lookup_setField_self (fs : List (String × JVal)) (k : String) (v : JVal) :
    (setField fs k v).lookup k = some v := by
  induction fs with
  | nil => simp [setField, lookup_cons]
  | cons hd tl ih =>
    obtain ⟨k', v'⟩ := hd
    by_cases h : k' = k
    · simp [setField, h, lookup_cons]
    · simp [setField, h, lookup_cons, Ne.symm h, ih]

theorem lookup_setField_ne (fs : List (String × JVal)) (k k' : String) (v : JVal)
    (h : k' ≠ k) : (setField fs k v).lookup k' = fs.lookup k' := by
  induction fs with
  | nil => simp [setField, lookup_cons, h]
  | cons hd tl ih =>
    obtain ⟨k₀, v₀⟩ := hd
    by_cases h0 : k₀ = k
    · subst h0
      simp [setField, lookup_cons, h]
    · by_cases h1 : k' = k₀ <;> simp [setField, h0, lookup_cons, h1, ih]

theorem bind_eq_ok {ε α β : Type} {e : Except ε α} {f : α → Except ε β} {b : β} :
    e >>= f = .ok b ↔ ∃ a, e = .ok a ∧ f a = .ok b := by
  cases e <;> simp [ok_bind, error_bind]

theorem exMapM_ok_get {α β : Type} {f : α → Except PyErr β} {xs : List α} {ys : List β}
    (h : exMapM f xs = .ok ys) :
    ∀ i x, xs.get? i = some x → ∃ y, ys.get? i = some y ∧ f x = .ok y := by
  induction xs generalizing ys with
  | nil => intro i x hx; simp at hx
  | cons hd tl ih =>
    intro i x hx
    rw [exMapM, bind_eq_ok] at h
    obtain ⟨y, hy, h⟩ := h
    rw [bind_eq_ok] at h
    obtain ⟨ys', hys', h⟩ := h
    simp only [pure_eq_ok, Except.ok.injEq] at h
    subst h
    cases i with
    | zero =>
      simp only [List.get?] at hx
      cases hx
      exact ⟨y, rfl, hy⟩
    | succ n =>
      simp only [List.get?] at hx ⊢
      exact ih hys' n x hx

theorem exMapM_ok_of_forall {α β : Type} {f : α → Except PyErr β} {xs : List α}
    (h : ∀ x ∈ xs, ∃ y, f x = .ok y) : ∃ ys, exMapM f xs = .ok ys := by
  induction xs with
  | nil => exact ⟨[], rfl⟩
  | cons hd tl ih =>
    obtain ⟨y, hy⟩ := h hd (by simp)
    obtain ⟨ys, hys⟩ := ih (fun x hx => h x (by simp [hx]))
    exact ⟨y :: ys, by simp [exMapM, hy, hys, ok_bind, pure_eq_ok]⟩

/-! ### Behavior of the field-scaling pass -/

theorem scaleField_lookup_ne {s : ℚ} {fs fs' : List (String × JVal)} {k : String}
    (h : scaleField s fs k = .ok fs') (k' : String) (hne : k' ≠ k) :
    fs'.lookup k' = fs.lookup k' := by
  unfold scaleField at h
  cases hl : fs.lookup k with
  | none => rw [hl] at h; simp at h; subst h; rfl
  | some v =>
    rw [hl] at h
    simp only [Option.elim_some, bind_eq_ok] at h
    obtain ⟨v', _, h⟩ := h
    simp only [pure_eq_ok, Except.ok.injEq] at h
    subst h
    exact lookup_setField_ne fs k k' v' hne

theorem scaleField_num {s : ℚ} {fs : List (String × JVal)} {k : String} {q : ℚ}
    (hs : s ≠ 0) (hl : fs.lookup k = some (.num q)) :
    scaleField s fs k = .ok (setField fs k (.num (q / s))) := by
  unfold scaleField
  rw [hl]
  simp [divByScale, hs, ok_bind, pure_eq_ok]

theorem scaleField_none {s : ℚ} {fs : List (String × JVal)} {k : String}
    (hl : fs.lookup k = none) : scaleField s fs k = .ok fs := by
  unfold scaleField; rw [hl]; rfl

theorem scaleFields_lookup_notin {s : ℚ} {ks : List String}
    {fs fs' : List (String × JVal)} (h : scaleFields s ks fs = .ok fs')
    (k : String) (hk : k ∉ ks) : fs'.lookup k = fs.lookup k := by
  induction ks generalizing fs with
  | nil => rw [scaleFields] at h; cases h; rfl
  | cons k₀ ks' ih =>
    rw [scaleFields, bind_eq_ok] at h
    obtain ⟨fs₁, h₁, h₂⟩ := h
    have hne : k ≠ k₀ := fun he => hk (he ▸ List.mem_cons_self k₀ ks')
    have hnin : k ∉ ks' := fun hin => hk (List.mem_cons_of_mem _ hin)
    rw [ih h₂ hnin, scaleField_lookup_ne h₁ k hne]

theorem scaleFields_lookup_num {s : ℚ} {ks : List String}
    {fs fs' : List (String × JVal)} {k : String} {q : ℚ}
    (hs : s ≠ 0) (hnd : ks.Nodup) (h : scaleFields s ks fs = .ok fs')
    (hk : k ∈ ks) (hl : fs.lookup k = some (.num q)) :
    fs'.lookup k = some (.num (q / s)) := by
  induction ks generalizing fs with
  | nil => simp at hk
  | cons k₀ ks' ih =>
    rw [scaleFields, bind_eq_ok] at h
    obtain ⟨fs₁, h₁, h₂⟩ := h
    rcases List.mem_cons.mp hk with he | hin
    · subst he
      rw [scaleField_num hs hl] at h₁
      cases h₁
      have : k ∉ ks' := (List.nodup_cons.mp hnd).1
      rw [scaleFields_lookup_notin h₂ k this]
      exact lookup_setField_self fs k (.num (q / s))
    · have hne : k ≠ k₀ := fun he => (List.nodup_cons.mp hnd).1 (he ▸ hin)
      have hl₁ : fs₁.lookup k = some (.num q) := by
        rw [scaleField_lookup_ne h₁ k hne]; exact hl
      exact ih (List.nodup_cons.mp hnd).2 h₂ hin hl₁

theorem scaledKeys_nodup : scaledKeys.Nodup := by decide

theorem paths_not_scaled : "paths" ∉ scaledKeys := by decide

/-- Inversion of a successful `normAnn` run. -/
theorem normAnn_ok_inv {s : ℚ} {a a' : JVal} (h : normAnn s a = .ok a') :
    ∃ fsa fs₁, a = .obj fsa ∧ scaleFields s scaledKeys fsa = .ok fs₁ ∧
      ((fs₁.lookup "paths" = none ∧ a' = .obj fs₁) ∨
       (∃ pv ps ps', fs₁.lookup "paths" = some pv ∧ iterElems pv = .ok ps ∧
          exMapM (normPath s) ps = .ok ps' ∧
          a' = .obj (setField fs₁ "paths" (.arr ps')))) := by
  unfold normAnn at h
  rw [bind_eq_ok] at h
  obtain ⟨fsa, hcopy, h⟩ := h
  have ha : a = .obj fsa := by
    cases a <;> simp [copyDict] at hcopy
    simp [hcopy]
  rw [bind_eq_ok] at h
  obtain ⟨fs₁, hscale, h⟩ := h
  refine ⟨fsa, fs₁, ha, hscale, ?_⟩
  cases hp : fs₁.lookup "paths" with
  | none =>
    rw [hp] at h
    simp only [Option.elim_none, Except.ok.injEq] at h
    exact Or.inl ⟨rfl, h.symm⟩
  | some pv =>
    rw [hp] at h
    simp only [Option.elim_some, bind_eq_ok] at h
    obtain ⟨ps, hps, h⟩ := h
    obtain ⟨ps', hps', h⟩ := h
    simp only [pure_eq_ok, Except.ok.injEq] at h
    exact Or.inr ⟨pv, ps, ps', rfl, hps, hps', h.symm⟩

/-- Inversion of a successful `normPath` run. -/
theorem normPath_ok_inv {s : ℚ} {p p' : JVal} (h : normPath s p = .ok p') :
    ∃ pf, p = .obj pf ∧
      ((pf.lookup "points" = none ∧ p' = .obj pf) ∨
       (∃ pv pts pts', pf.lookup "points" = some pv ∧ iterElems pv = .ok pts ∧
          exMapM (normPoint s) pts = .ok pts' ∧
          p' = .obj (setField pf "points" (.arr pts')))) := by
  unfold normPath at h
  rw [bind_eq_ok] at h
  obtain ⟨pf, hcopy, h⟩ := h
  have hp : p = .obj pf := by
    cases p <;> simp [copyDict] at hcopy
    simp [hcopy]
  refine ⟨pf, hp, ?_⟩
  cases hpt : pf.lookup "points" with
  | none =>
    rw [hpt] at h
    simp only [Option.elim_none, Except.ok.injEq] at h
    exact Or.inl ⟨rfl, h.symm⟩
  | some pv =>
    rw [hpt] at h
    simp only [Option.elim_some, bind_eq_ok] at h
    obtain ⟨pts, hpts, h⟩ := h
    obtain ⟨pts', hpts', h⟩ := h
    simp only [pure_eq_ok, Except.ok.injEq] at h
    exact Or.inr ⟨pv, pts, pts', rfl, hpts, hpts', h.symm⟩

/-- A successful `normPoint` on a point with numeric coordinates
produces the divided pair `{"x": x/s, "y": y/s}`. -/
theorem normPoint_num {s : ℚ} {pt : JVal} {px py : ℚ}
    (hx : getItem pt "x" = .ok (.num px)) (hy : getItem pt "y" = .ok (.num py))
    (hs : s ≠ 0) :
    normPoint s pt = .ok (.obj [("x", .num (px / s)), ("y", .num (py / s))]) := by
  unfold normPoint
  rw [hx]
  simp only [ok_bind, divByScale, hs, if_false]
  rw [hy]
  simp [ok_bind, pure_eq_ok, divByScale, hs]

theorem exMapM_singleton_ok {α β : Type} {f : α → Except PyErr β} {x : α} {l : List β} :
    exMapM f [x] = .ok l ↔ ∃ y, f x = .ok y ∧ l = [y] := by
  constructor
  · intro h
    rw [exMapM, bind_eq_ok] at h
    obtain ⟨y, hy, h⟩ := h
    rw [exMapM] at h
    simp only [ok_bind, pure_eq_ok, Except.ok.injEq] at h
    exact ⟨y, hy, h.symm⟩
  · rintro ⟨y, hy, rfl⟩
    simp [exMapM, hy, ok_bind, pure_eq_ok]

theorem pathPoint_eq_some_inv {fs : List (String × JVal)} {i j : ℕ} {pt : JVal}
    (h : pathPoint fs i j = some pt) :
    ∃ ps pf pts, fs.lookup "paths" = some (.arr ps) ∧ ps.get? i = some (.obj pf) ∧
      pf.lookup "points" = some (.arr pts) ∧ pts.get? j = some pt := by
  unfold pathPoint at h
  simp only [Option.bind_eq_bind, Option.bind_eq_some] at h
  obtain ⟨pv, hpv, ps, hps, p, hp, pf, hpf, ptsv, hptsv, pts, hpts, hget⟩ := h
  cases pv <;> simp [asArr] at hps
  cases p <;> simp [asObjFields] at hpf
  cases ptsv <;> simp [asArr] at hpts
  subst hps hpf hpts
  exact ⟨_, _, _, hpv, hp, hptsv, hget⟩

/-- C4: `normalize(a, 1.0) == a` — with scale exactly `1.0` the normalizer
returns its input list unchanged (`_normalize_annotations`, lines 141-142). -/
theorem normalize_identity_at_scale_one (anns : List JVal) :
    normalizeAnnotations anns 1 = .ok anns := by
  simp [normalizeAnnotations]

/-- C2: for scale `s > 0`, on an annotation for which normalization
succeeds, every present numeric length field among
x, y, width, height, fontSize, strokeWidth, x1, y1, x2, y2 is divided by
`s`; every other field except the rebuilt `paths` is passed through
verbatim; every freehand path point with numeric coordinates is divided
coordinate-wise; and the spec's worked example — a text annotation at
canvas (100,100), size (200,40), fontSize 24 with scale 2.0 — normalizes
to x=50, y=50, width=100, height=20, fontSize=12 with type, page and text
untouched. -/
theorem normalize_linearity (s : ℚ) (a a' : JVal)
    (fsa fsa' : List (String × JVal))
    (hs : 0 < s) (hnorm : normalizeAnnotations [a] s = .ok [a'])
    (ha : a = .obj fsa) (ha' : a' = .obj fsa') :
    (∀ k ∈ scaledKeys, ∀ q : ℚ, fsa.lookup k = some (.num q) →
        fsa'.lookup k = some (.num (q / s))) ∧
    (∀ k, k ∉ scaledKeys → k ≠ "paths" → fsa'.lookup k = fsa.lookup k) ∧
    (∀ i j : ℕ, ∀ pt : JVal, ∀ px py : ℚ,
        pathPoint fsa i j = some pt →
        getItem pt "x" = .ok (.num px) → getItem pt "y" = .ok (.num py) →
        ∃ pt', pathPoint fsa' i j = some pt' ∧
          getItem pt' "x" = .ok (.num (px / s)) ∧
          getItem pt' "y" = .ok (.num (py / s))) ∧
    normalizeAnnotations
      [.obj [("type", .str "text"), ("page", .num 1), ("x", .num 100), ("y", .num 100),
             ("width", .num 200), ("height", .num 40), ("fontSize", .num 24),
             ("text", .str "Hello")]] 2
      = .ok [.obj [("type", .str "text"), ("page", .num 1), ("x", .num 50), ("y", .num 50),
             ("width", .num 100), ("height", .num 20), ("fontSize", .num 12),
             ("text", .str "Hello")]] := by
  have hs0 : s ≠ 0 := ne_of_gt hs
  have hexample : normalizeAnnotations
      [.obj [("type", .str "text"), ("page", .num 1), ("x", .num 100), ("y", .num 100),
             ("width", .num 200), ("height", .num 40), ("fontSize", .num 24),
             ("text", .str "Hello")]] 2
      = .ok [.obj [("type", .str "text"), ("page", .num 1), ("x", .num 50), ("y", .num 50),
             ("width", .num 100), ("height", .num 20), ("fontSize", .num 12),
             ("text", .str "Hello")]] := by
    simp [normalizeAnnotations, normAnn, scaleField, scaleFields, divByScale, setField,
      copyDict, dictGet, iterElems, normPath, normPoint, scaledKeys, exMapM, getItem,
      ok_bind, error_bind, pure_eq_ok, lookup_cons]
    norm_num
  by_cases h1 : s = 1
  · subst h1
    rw [normalizeAnnotations, if_pos rfl] at hnorm
    simp only [Except.ok.injEq, List.cons.injEq, and_true] at hnorm
    have hfs : fsa' = fsa := by
      rw [hnorm] at ha; rw [ha'] at ha
      exact (JVal.obj.injEq _ _).mp ha
    subst hfs
    refine ⟨?_, ?_, ?_, hexample⟩
    · intro k _ q hl; rw [hl, div_one]
    · intro k _ _; rfl
    · intro i j pt px py hpt hx hy
      exact ⟨pt, hpt, by rw [div_one]; exact hx, by rw [div_one]; exact hy⟩
  · rw [normalizeAnnotations, if_neg h1, exMapM_singleton_ok] at hnorm
    obtain ⟨a'', hann, heq⟩ := hnorm
    have haa : a'' = a' := by cases heq; rfl
    subst haa
    obtain ⟨fsa₀, fs₁, ha₀, hscale, hrest⟩ := normAnn_ok_inv hann
    have hfs₀ : fsa₀ = fsa := by
      rw [ha] at ha₀; exact ((JVal.obj.injEq _ _).mp ha₀).symm
    subst hfs₀
    rcases hrest with ⟨hpnone, ha''⟩ | ⟨pv, ps, ps', hpsome, hiter, hmap, ha''⟩
    · -- the annotation has no "paths" field after scaling
      have hfs' : fsa' = fs₁ := by
        rw [ha''] at ha'; exact ((JVal.obj.injEq _ _).mp ha').symm
      subst hfs'
      refine ⟨?_, ?_, ?_, hexample⟩
      · intro k hk q hl
        exact scaleFields_lookup_num hs0 scaledKeys_nodup hscale hk hl
      · intro k hk _
        exact scaleFields_lookup_notin hscale k hk
      · intro i j pt px py hpt hx hy
        obtain ⟨ps₀, _, _, hlp, _, _, _⟩ := pathPoint_eq_some_inv hpt
        rw [scaleFields_lookup_notin hscale "paths" paths_not_scaled] at hpnone
        rw [hpnone] at hlp
        cases hlp
    · -- the "paths" field is present and rebuilt
      have hfs' : fsa' = setField fs₁ "paths" (.arr ps') := by
        rw [ha''] at ha'; exact ((JVal.obj.injEq _ _).mp ha').symm
      subst hfs'
      refine ⟨?_, ?_, ?_, hexample⟩
      · intro k hk q hl
        have hkp : k ≠ "paths" := fun he => paths_not_scaled (he ▸ hk)
        rw [lookup_setField_ne _ _ _ _ hkp]
        exact scaleFields_lookup_num hs0 scaledKeys_nodup hscale hk hl
      · intro k hk hkp
        rw [lookup_setField_ne _ _ _ _ hkp]
        exact scaleFields_lookup_notin hscale k hk
      · intro i j pt px py hpt hx hy
        obtain ⟨ps₀, pf, pts₀, hlp, hgi, hlpts, hgj⟩ := pathPoint_eq_some_inv hpt
        have hlp₁ : fs₁.lookup "paths" = some (.arr ps₀) := by
          rw [scaleFields_lookup_notin hscale "paths" paths_not_scaled]; exact hlp
        rw [hlp₁] at hpsome
        cases hpsome
        have hps₀ : ps = ps₀ := by
          simp only [iterElems, Except.ok.injEq] at hiter; exact hiter.symm
        subst hps₀
        obtain ⟨y, hy', hnpath⟩ := exMapM_ok_get hmap i _ hgi
        obtain ⟨pf₂, hpf₂, hcases⟩ := normPath_ok_inv hnpath
        have hpf : pf₂ = pf := ((JVal.obj.injEq _ _).mp hpf₂).symm
        subst hpf
        rcases hcases with ⟨hnone, _⟩ | ⟨pv₂, pts, pts', hsome, hiter₂, hmap₂, hy''⟩
        · rw [hnone] at hlpts; cases hlpts
        · rw [hlpts] at hsome
          cases hsome
          have hpts : pts = pts₀ := by
            simp only [iterElems, Except.ok.injEq] at hiter₂; exact hiter₂.symm
          subst hpts
          obtain ⟨pt', hpt', hnp⟩ := exMapM_ok_get hmap₂ j _ hgj
          rw [normPoint_num hx hy hs0] at hnp
          have hpt'' : pt' = .obj [("x", .num (px / s)), ("y", .num (py / s))] := by
            cases hnp; rfl
          subst hpt''
          refine ⟨.obj [("x", .num (px / s)), ("y", .num (py / s))], ?_, ?_, ?_⟩
          · unfold pathPoint
            subst hy''
            simp only [List.get?_eq_getElem?] at hy' hpt'
            simp [lookup_setField_self, asArr, asObjFields, hy', hpt',
              Option.bind_eq_bind]
          · simp [getItem, lookup_cons]
          · simp [getItem, lookup_cons]

/-- Witness for C2 at the spec's worked example: scale 2.0 on a text
annotation at (100,100) with fontSize 24; the scaled and passed-through
fields come out as the claim predicts. -/
theorem normalize_linearity_witness :
    normalizeAnnotations
      [.obj [("type", .str "text"), ("page", .num 1), ("x", .num 100), ("y", .num 100),
             ("width", .num 200), ("height", .num 40), ("fontSize", .num 24),
             ("text", .str "Hello")]] 2
      = .ok [.obj [("type", .str "text"), ("page", .num 1), ("x", .num 50), ("y", .num 50),
             ("width", .num 100), ("height", .num 20), ("fontSize", .num 12),
             ("text", .str "Hello")]] ∧
    List.lookup "x" [("type", JVal.str "text"), ("page", JVal.num 1), ("x", JVal.num 50),
        ("y", JVal.num 50), ("width", JVal.num 100), ("height", JVal.num 20),
        ("fontSize", JVal.num 12), ("text", JVal.str "Hello")] = some (.num (100 / 2)) ∧
    List.lookup "text" [("type", JVal.str "text"), ("page", JVal.num 1), ("x", JVal.num 50),
        ("y", JVal.num 50), ("width", JVal.num 100), ("height", JVal.num 20),
        ("fontSize", JVal.num 12), ("text", JVal.str "Hello")]
      = List.lookup "text" [("type", JVal.str "text"), ("page", JVal.num 1),
        ("x", JVal.num 100), ("y", JVal.num 100), ("width", JVal.num 200),
        ("height", JVal.num 40), ("fontSize", JVal.num 24), ("text", JVal.str "Hello")] := by
  have hnorm : normalizeAnnotations
      [.obj [("type", .str "text"), ("page", .num 1), ("x", .num 100), ("y", .num 100),
             ("width", .num 200), ("height", .num 40), ("fontSize", .num 24),
             ("text", .str "Hello")]] 2
      = .ok [.obj [("type", .str "text"), ("page", .num 1), ("x", .num 50), ("y", .num 50),
             ("width", .num 100), ("height", .num 20), ("fontSize", .num 12),
             ("text", .str "Hello")]] := by
    simp [normalizeAnnotations, normAnn, scaleField, scaleFields, divByScale, setField,
      copyDict, dictGet, iterElems, normPath, normPoint, scaledKeys, exMapM, getItem,
      ok_bind, error_bind, pure_eq_ok, lookup_cons]
    norm_num
  have h := normalize_linearity 2 _ _ _ _ (by norm_num) hnorm rfl rfl
  refine ⟨hnorm, ?_, ?_⟩
  · exact h.1 "x" (by decide) 100 (by simp [lookup_cons])
  · exact h.2.1 "text" (by decide) (by decide)

/-! ### Totality of the normalizer (C7) -/

/-- Values Python can divide by a float: numbers and booleans. -/
def numericVal : JVal → Bool
  | .num _ => true
  | .bool _ => true
  | _ => false

/-- A freehand path point the normalizer cannot crash on: a dict with
numeric `x` and `y` entries. -/
def wfPoint : JVal → Bool
  | .obj pf => (pf.lookup "x").elim false numericVal &&
      (pf.lookup "y").elim false numericVal
  | _ => false

/-- A freehand sub-path the normalizer cannot crash on: a dict whose
`points` entry, when present, is a list of well-formed points. -/
def wfPath : JVal → Bool
  | .obj pf => (pf.lookup "points").elim true
      (fun pv => (asArr pv).elim false (fun pts => pts.all wfPoint))
  | _ => false

/-- The scalar length field `k`, when present, is numeric. -/
def wfNumField (fs : List (String × JVal)) (k : String) : Bool :=
  (fs.lookup k).elim true numericVal

/-- An annotation record the normalizer cannot crash on: a dict whose
present length fields are numeric and whose `paths` entry, when present,
is a list of well-formed sub-paths. -/
def wfAnn : JVal → Bool
  | .obj fs => scaledKeys.all (wfNumField fs) &&
      (fs.lookup "paths").elim true
        (fun pv => (asArr pv).elim false (fun ps => ps.all wfPath))
  | _ => false

theorem divByScale_ok_of_numeric {v : JVal} {s : ℚ} (hs : s ≠ 0)
    (hv : numericVal v = true) : ∃ v', divByScale v s = .ok v' := by
  cases v <;> simp [numericVal] at hv <;> simp [divByScale, hs]

theorem scaleField_ok_of_wf {s : ℚ} {fs : List (String × JVal)} {k : String}
    (hs : s ≠ 0) (hwf : wfNumField fs k = true) :
    ∃ fs', scaleField s fs k = .ok fs' ∧
      ∀ k', k' ≠ k → fs'.lookup k' = fs.lookup k' := by
  unfold wfNumField at hwf
  cases hl : fs.lookup k with
  | none => exact ⟨fs, scaleField_none hl, fun _ _ => rfl⟩
  | some v =>
    rw [hl] at hwf
    simp only [Option.elim_some] at hwf
    obtain ⟨v', hv'⟩ := divByScale_ok_of_numeric hs hwf
    refine ⟨setField fs k v', ?_, fun k' hk' => lookup_setField_ne fs k k' v' hk'⟩
    unfold scaleField
    rw [hl]
    simp [hv', ok_bind, pure_eq_ok]

theorem scaleFields_ok_of_wf {s : ℚ} {ks : List String} {fs : List (String × JVal)}
    (hs : s ≠ 0) (hwf : ∀ k ∈ ks, wfNumField fs k = true) :
    ∃ fs', scaleFields s ks fs = .ok fs' ∧
      ∀ k', k' ∉ ks → fs'.lookup k' = fs.lookup k' := by
  induction ks generalizing fs with
  | nil => exact ⟨fs, rfl, fun _ _ => rfl⟩
  | cons k₀ ks' ih =>
    obtain ⟨fs₁, h₁, hpres₁⟩ := scaleField_ok_of_wf hs (hwf k₀ (by simp))
    have hwf' : ∀ k ∈ ks', wfNumField fs₁ k = true := by
      intro k hk
      unfold wfNumField
      by_cases he : k = k₀
      · subst he
        -- the field was just rewritten to a division result, which is numeric
        unfold wfNumField at hwf
        have hw := hwf k (by simp)
        unfold scaleField at h₁
        cases hl : fs.lookup k with
        | none => rw [hl] at h₁; simp at h₁; subst h₁; rw [hl]; simp
        | some v =>
          rw [hl] at h₁
          simp only [Option.elim_some, bind_eq_ok] at h₁
          obtain ⟨v', hv', h₁⟩ := h₁
          simp only [pure_eq_ok, Except.ok.injEq] at h₁
          subst h₁
          rw [lookup_setField_self]
          have : ∃ q : ℚ, v' = .num q := by
            rw [hl] at hw
            simp only [Option.elim_some] at hw
            cases v <;> simp [numericVal] at hw <;>
              simp [divByScale, hs] at hv' <;> exact ⟨_, hv'.symm⟩
          obtain ⟨q, hq⟩ := this
          simp [hq, numericVal]
      · rw [hpres₁ k he]
        exact hwf k (by simp [hk])
    obtain ⟨fs', h₂, hpres₂⟩ := ih hwf'
    refine ⟨fs', by simp [scaleFields, h₁, ok_bind, h₂], fun k' hk' => ?_⟩
    have h₀ : k' ≠ k₀ := fun he => hk' (he ▸ List.mem_cons_self k₀ ks')
    have hn : k' ∉ ks' := fun hin => hk' (List.mem_cons_of_mem _ hin)
    rw [hpres₂ k' hn, hpres₁ k' h₀]

theorem normPoint_ok_of_wf {s : ℚ} {pt : JVal} (hs : s ≠ 0)
    (hwf : wfPoint pt = true) : ∃ pt', normPoint s pt = .ok pt' := by
  cases pt with
  | obj pf =>
    simp only [wfPoint, Bool.and_eq_true] at hwf
    obtain ⟨hx, hy⟩ := hwf
    cases hlx : pf.lookup "x" with
    | none => rw [hlx] at hx; simp at hx
    | some vx =>
      cases hly : pf.lookup "y" with
      | none => rw [hly] at hy; simp at hy
      | some vy =>
        rw [hlx] at hx; rw [hly] at hy
        simp only [Option.elim_some] at hx hy
        obtain ⟨vx', hvx⟩ := divByScale_ok_of_numeric hs hx
        obtain ⟨vy', hvy⟩ := divByScale_ok_of_numeric hs hy
        refine ⟨.obj [("x", vx'), ("y", vy')], ?_⟩
        unfold normPoint
        simp [getItem, hlx, hly, hvx, hvy, ok_bind, pure_eq_ok]
  | num q => simp [wfPoint] at hwf
  | str s => simp [wfPoint] at hwf
  | bool b => simp [wfPoint] at hwf
  | arr xs => simp [wfPoint] at hwf
  | null => simp [wfPoint] at hwf

theorem normPath_ok_of_wf {s : ℚ} {p : JVal} (hs : s ≠ 0)
    (hwf : wfPath p = true) : ∃ p', normPath s p = .ok p' := by
  cases p with
  | obj pf =>
    simp only [wfPath] at hwf
    cases hlp : pf.lookup "points" with
    | none =>
      refine ⟨.obj pf, ?_⟩
      unfold normPath
      simp [copyDict, ok_bind, hlp]
    | some pv =>
      rw [hlp] at hwf
      simp only [Option.elim_some] at hwf
      cases pv <;> simp [asArr] at hwf
      case arr pts =>
        have : ∀ x ∈ pts, ∃ y, normPoint s x = .ok y := by
          intro x hx
          exact normPoint_ok_of_wf hs (hwf x hx)
        obtain ⟨pts', hpts'⟩ := exMapM_ok_of_forall this
        refine ⟨.obj (setField pf "points" (.arr pts')), ?_⟩
        unfold normPath
        simp [copyDict, ok_bind, hlp, iterElems, hpts', pure_eq_ok]
  | num q => simp [wfPath] at hwf
  | str s => simp [wfPath] at hwf
  | bool b => simp [wfPath] at hwf
  | arr xs => simp [wfPath] at hwf
  | null => simp [wfPath] at hwf

theorem normAnn_ok_of_wf {s : ℚ} {a : JVal} (hs : s ≠ 0)
    (hwf : wfAnn a = true) : ∃ a', normAnn s a = .ok a' := by
  cases a with
  | obj fs =>
    simp only [wfAnn, Bool.and_eq_true] at hwf
    obtain ⟨hnum, hpaths⟩ := hwf
    rw [List.all_eq_true] at hnum
    obtain ⟨fs₁, h₁, hpres⟩ := scaleFields_ok_of_wf hs hnum
    have hlp₁ : fs₁.lookup "paths" = fs.lookup "paths" :=
      hpres "paths" paths_not_scaled
    cases hlp : fs.lookup "paths" with
    | none =>
      refine ⟨.obj fs₁, ?_⟩
      unfold normAnn
      simp [copyDict, ok_bind, h₁, hlp₁, hlp]
    | some pv =>
      rw [hlp] at hpaths
      simp only [Option.elim_some] at hpaths
      cases pv <;> simp [asArr] at hpaths
      case arr ps =>
        have : ∀ x ∈ ps, ∃ y, normPath s x = .ok y := by
          intro x hx
          exact normPath_ok_of_wf hs (hpaths x hx)
        obtain ⟨ps', hps'⟩ := exMapM_ok_of_forall this
        refine ⟨.obj (setField fs₁ "paths" (.arr ps')), ?_⟩
        unfold normAnn
        simp [copyDict, ok_bind, h₁, hlp₁, hlp, iterElems, hps', pure_eq_ok]
  | num q => simp [wfAnn] at hwf
  | str s => simp [wfAnn] at hwf
  | bool b => simp [wfAnn] at hwf
  | arr xs => simp [wfAnn] at hwf
  | null => simp [wfAnn] at hwf

/-- C7 counterexample: `_normalize_annotations` is not total.  A drawing
annotation whose path point lacks the `"x"` entry makes the normalizer
evaluate `point["x"]`, which raises `KeyError("x")` (source line 185),
refuting "never raises an exception" for arbitrary paths/points. -/
theorem normalize_totality_counterexample :
    normalizeAnnotations
      [.obj [("paths", .arr [.obj [("points", .arr [.obj [("y", .num 1)]])]])]] 2
      = .error (.keyError "x") := by
  simp [normalizeAnnotations, normAnn, scaleField, scaleFields, divByScale, setField,
    copyDict, dictGet, iterElems, normPath, normPoint, scaledKeys, exMapM, getItem,
    ok_bind, error_bind, pure_eq_ok, lookup_cons]

/-- C7 as amended: for scale `s > 0` the normalizer never raises on
well-formed annotation records — dicts whose present length fields are
numeric and whose `paths` structure, when present, is a list of dicts
whose `points`, when present, are lists of dicts with numeric `x` and `y`.
(With scale exactly 1.0 it never raises on any input.) -/
theorem normalize_total_on_wellformed (s : ℚ) (anns : List JVal)
    (hs : 0 < s) (hwf : anns.all wfAnn = true) :
    ∃ rs, normalizeAnnotations anns s = .ok rs := by
  by_cases h1 : s = 1
  · exact ⟨anns, by simp [normalizeAnnotations, h1]⟩
  · rw [List.all_eq_true] at hwf
    obtain ⟨rs, hrs⟩ := exMapM_ok_of_forall
      (fun a ha => normAnn_ok_of_wf (ne_of_gt hs) (hwf a ha))
    exact ⟨rs, by simp [normalizeAnnotations, h1, hrs]⟩

/-- Witness for the amended C7: a well-formed drawing annotation with one
two-point stroke normalizes without raising at scale 2. -/
theorem normalize_total_on_wellformed_witness :
    (0:ℚ) < 2 ∧
    (([JVal.obj [("strokeWidth", .num 4),
        ("paths", .arr [.obj [("points",
          .arr [.obj [("x", .num 2), ("y", .num 4)],
                .obj [("x", .num 6), ("y", .num 8)]])]])]].all wfAnn) = true) ∧
    ∃ rs, normalizeAnnotations
      [JVal.obj [("strokeWidth", .num 4),
        ("paths", .arr [.obj [("points",
          .arr [.obj [("x", .num 2), ("y", .num 4)],
                .obj [("x", .num 6), ("y", .num 8)]])]])]] 2 = .ok rs := by
  refine ⟨by norm_num, ?_, ?_⟩
  · simp [wfAnn, wfPath, wfPoint, wfNumField, numericVal, asArr, scaledKeys, lookup_cons]
  · exact normalize_total_on_wellformed 2 _ (by norm_num)
      (by simp [wfAnn, wfPath, wfPoint, wfNumField, numericVal, asArr, scaledKeys, lookup_cons])

/-! ### Value coercions used by the fitz drawing code -/

/-- Attribute access `ann.get(...)` requires a dict; otherwise Python
raises `AttributeError`. -/
def annDict : JVal → Except PyErr (List (String × JVal))
  | .obj fs => .ok fs
  | _ => .error (.attributeError "get")

/-- A value in a position where fitz requires a number (point coordinates,
font sizes, widths, opacities); Python booleans count as numbers. -/
def asNum : JVal → Except PyErr ℚ
  | .num q => .ok q
  | .bool b => .ok (if b then 1 else 0)
  | _ => .error (.typeError "a number is required")

/-- A value in a position requiring a string. -/
def asStr : JVal → Except PyErr String
  | .str s => .ok s
  | _ => .error (.typeError "expected str")

/-- Python truthiness, as used by `if not data:` and `if checked:`. -/
def pyTruthy : JVal → Bool
  | .num q => decide (q ≠ 0)
  | .str s => decide (s ≠ "")
  | .bool b => b
  | .arr xs => !xs.isEmpty
  | .obj fs => !fs.isEmpty
  | .null => false

/-- Python `+` on the values that can appear in annotation fields. -/
def pyAdd : JVal → JVal → Except PyErr JVal
  | .num a, .num b => .ok (.num (a + b))
  | .num a, .bool b => .ok (.num (a + if b then 1 else 0))
  | .bool a, .num b => .ok (.num ((if a then (1 : ℚ) else 0) + b))
  | .bool a, .bool b => .ok (.num ((if a then (1 : ℚ) else 0) + if b then 1 else 0))
  | .str a, .str b => .ok (.str (a ++ b))
  | .arr a, .arr b => .ok (.arr (a ++ b))
  | _, _ => .error (.typeError "unsupported operand type for +")

/-- Is this `JVal` the given string? (Python `ann_type == "text"` etc.) -/
def isStr : JVal → String → Bool
  | .str t, s => t == s
  | _, _ => false

/-- The string payload of a `JVal`, defaulting to `""`. -/
def strOf : JVal → String
  | .str s => s
  | _ => ""

/-- Python `c in s` for a single character (source: `"," in data`). -/
def strContainsChar (s : String) (c : Char) : Bool :=
  s.toList.any (fun x => x == c)

/-- Helper for `splitCharsOn`: prepend a character to the first chunk. -/
def consHead (x : Char) : List (List Char) → List (List Char)
  | [] => [[x]]
  | h :: t => (x :: h) :: t

/-- Python `s.split(sep)` for a one-character separator (the source only
splits on `","` and `"\n"`), at the character-list level. -/
def splitCharsOn (c : Char) : List Char → List (List Char)
  | [] => [[]]
  | x :: xs =>
    if x = c then [] :: splitCharsOn c xs else consHead x (splitCharsOn c xs)

/-- Python `s.split(sep)` for a one-character separator. -/
def pySplit (s : String) (c : Char) : List String :=
  (splitCharsOn c s.toList).map (fun cs => String.mk cs)

/-! ### Hex color parsing (`int(color_hex[1:3], 16) / 255` etc.) -/

def isHexDigitChar (c : Char) : Bool :=
  c.isDigit || ('a' ≤ c && c ≤ 'f') || ('A' ≤ c && c ≤ 'F')

def hexDigitVal (c : Char) : ℕ :=
  if c.isDigit then c.toNat - 48
  else if 'a' ≤ c && c ≤ 'f' then c.toNat - 87
  else c.toNat - 55

/-- `int(cs, 16)` on a slice: succeeds on a nonempty string of plain hex
digits (Python's extras such as whitespace or sign prefixes are outside
the inputs this service meets), otherwise `ValueError` (here `none`). -/
def pyHexInt (cs : List Char) : Option ℕ :=
  if cs.isEmpty then none
  else if cs.all isHexDigitChar then
    some (cs.foldl (fun acc c => 16 * acc + hexDigitVal c) 0)
  else none

/-- Helper: combine the three parsed hex bytes or fall back to the default
(Python catches only `ValueError`/`IndexError` around the parse). -/
def hexTriple (dflt : ℚ × ℚ × ℚ) : Option ℕ → Option ℕ → Option ℕ → ℚ × ℚ × ℚ
  | some r, some g, some b => ((r : ℚ) / 255, (g : ℚ) / 255, (b : ℚ) / 255)
  | _, _, _ => dflt

/-- The `try: r = int(color_hex[1:3], 16) / 255 ... except (ValueError,
IndexError)` pattern of `_draw_annotation_fitz`.  Slicing a non-string
color value raises `TypeError`, which that `except` clause does not catch,
so it propagates. -/
def parseColorHex (dflt : ℚ × ℚ × ℚ) : JVal → Except PyErr (ℚ × ℚ × ℚ)
  | .str s =>
    .ok (hexTriple dflt
      (pyHexInt ((s.toList.drop 1).take 2))
      (pyHexInt ((s.toList.drop 3).take 2))
      (pyHexInt ((s.toList.drop 5).take 2)))
  | _ => .error (.typeError "color value is not subscriptable")

/-! ### The fitz drawing model -/

/-- A point in fitz page (device) coordinates: origin top-left, y grows
downward. -/
structure Pt where
  x : ℚ
  y : ℚ
  deriving DecidableEq, Repr

/-- One drawing call issued against the fitz page by
`_draw_annotation_fitz`.  `insertImage` carries the (possibly
data-URL-stripped) base64 payload opaquely — decoding is the library's
business.  `stampLike` records the stamp / signed-stamp / watermark
branches opaquely; their rotation geometry (which needs `cos`/`sin`) is
modelled separately and parametrically in the stamp-geometry section. -/
inductive DrawOp where
  | insertText (p : Pt) (text : String) (fontSize : ℚ) (color : ℚ × ℚ × ℚ)
  | insertImage (topLeft : Pt) (bottomRight : Pt) (payload : String)
  | drawLine (a : Pt) (b : Pt)
  | drawRect (topLeft : Pt) (bottomRight : Pt)
  | finishStroke (color : ℚ × ℚ × ℚ) (width : ℚ)
  | finishFillOnly (fill : ℚ × ℚ × ℚ) (fillOpacity : ℚ)
  | stampLike (variant : String) (fields : List (String × JVal)) (pageHeight : ℚ)

/-- Collapse of a `try: ... except Exception: pass` block around drawing
calls: on any error nothing is drawn. -/
def attemptOps : Except PyErr (List DrawOp) → List DrawOp
  | .ok ops => ops
  | .error _ => []

/-- The signature/image branch body (source lines 313-332), whose
`try/except` swallows every failure, dropping just that mark. -/
def imageBranch (xv yv wv hv data : JVal) : List DrawOp :=
  attemptOps (do
    let ds ← asStr data
    let payload := if strContainsChar ds ',' then (pySplit ds ',').getD 1 "" else ds
    let nx ← asNum xv
    let ny ← asNum yv
    let nw ← asNum wv
    let nh ← asNum hv
    .ok [.insertImage ⟨nx, ny⟩ ⟨nx + nw, ny + nh⟩ payload])

/-- Convert one freehand point dict to a fitz point
(`fitz.Point(p.get("x", 0), p.get("y", 0))`). -/
def pointPt (p : JVal) : Except PyErr Pt := do
  let pf ← annDict p
  let nx ← asNum (dictGet pf "x" (.num 0))
  let ny ← asNum (dictGet pf "y" (.num 0))
  .ok ⟨nx, ny⟩

/-- Python `len()` as applied to the `points` value. -/
def pyLen : JVal → Except PyErr ℕ
  | .arr xs => .ok xs.length
  | .str s => .ok s.length
  | .obj fs => .ok fs.length
  | _ => .error (.typeError "object has no len")

/-- Integer indexing of the `points` sequence: lists index normally,
strings yield one-character strings (which then fail at `.get`), dicts
raise on integer keys. -/
def seqElems : JVal → Except PyErr (List JVal)
  | .arr xs => .ok xs
  | .str s => .ok (s.toList.map (fun c => .str (String.mk [c])))
  | .obj _ => .error (.keyError "0")
  | _ => .error (.typeError "object is not subscriptable")

/-- The `for i in range(1, len(points))` segment loop of the drawing
branch: one `draw_line` per consecutive point pair. -/
def segLines : Pt → List JVal → Except PyErr (List DrawOp)
  | _, [] => .ok []
  | prev, p :: rest => do
    let cur ← pointPt p
    let ops ← segLines cur rest
    .ok (.drawLine prev cur :: ops)

/-- Helper: emit the segments once the point list is at hand. -/
def segsOf : List JVal → Except PyErr (List DrawOp)
  | [] => .ok []
  | p0 :: rest => do
    let fp ← pointPt p0
    let ops ← segLines fp rest
    .ok (.drawLine fp fp :: ops)

/-- One sub-path of the drawing branch (source lines 347-364): paths with
fewer than 2 points are skipped; otherwise a degenerate first segment and
then one line per consecutive pair. -/
def pathSegmentOps (path : JVal) : Except PyErr (List DrawOp) := do
  let pf ← annDict path
  let ptsv := dictGet pf "points" (.arr [])
  let n ← pyLen ptsv
  if n < 2 then .ok []
  else do
    let pts ← seqElems ptsv
    segsOf pts

/-- `_draw_annotation_fitz(page, ann, page_height)` (source lines 276-944)
as the list of fitz drawing calls it issues.  The branches whose geometry
needs `math.cos`/`math.sin` (stamp, signed stamp, watermark) are recorded
opaquely as `stampLike`; all other branches are translated in full. -/
def drawAnnotationFitz (pageHeight : ℚ) (ann : JVal) : Except PyErr (List DrawOp) := do
  let fs ← annDict ann
  let ty := dictGet fs "type" (.str "text")
  let xv := dictGet fs "x" (.num 0)
  let yv := dictGet fs "y" (.num 0)
  let wv := dictGet fs "width" (.num 100)
  let hv := dictGet fs "height" (.num 20)
  if isStr ty "text" then do
    -- text branch (lines 291-311): one insert_text of the whole string at
    -- fitz.Point(x, y + font_size)
    let textv := dictGet fs "text" (.str "")
    let fsv := dictGet fs "fontSize" (.num 12)
    let colorv := dictGet fs "color" (.str "#000000")
    let rgb ← parseColorHex (0, 0, 0) colorv
    let yf ← pyAdd yv fsv
    let nx ← asNum xv
    let ny ← asNum yf
    let fsz ← asNum fsv
    let t ← asStr textv
    .ok [.insertText ⟨nx, ny⟩ t fsz rgb]
  else if isStr ty "signature" || isStr ty "image" then do
    let data := dictGet fs "data" (.str "")
    if pyTruthy data then .ok (imageBranch xv yv wv hv data) else .ok []
  else if isStr ty "drawing" then do
    let pathsv := dictGet fs "paths" (.arr [])
    let colorv := dictGet fs "color" (.str "#000000")
    let swv := dictGet fs "strokeWidth" (.num 2)
    let rgb ← parseColorHex (0, 0, 0) colorv
    let paths ← iterElems pathsv
    let opsN ← exMapM pathSegmentOps paths
    let sw ← asNum swv
    .ok (opsN.flatten ++ [.finishStroke rgb sw])
  else if isStr ty "checkbox" then do
    let checked := pyTruthy (dictGet fs "checked" (.bool false))
    let nx ← asNum xv
    let ny ← asNum yv
    let nw ← asNum wv
    let nh ← asNum hv
    .ok ([DrawOp.drawRect ⟨nx, ny⟩ ⟨nx + nw, ny + nh⟩] ++
      (if checked then
        [DrawOp.drawLine ⟨nx + nw * 0.2, ny + nh * 0.5⟩ ⟨nx + nw * 0.4, ny + nh * 0.8⟩,
         DrawOp.drawLine ⟨nx + nw * 0.4, ny + nh * 0.8⟩ ⟨nx + nw * 0.8, ny + nh * 0.2⟩]
       else []) ++ [DrawOp.finishStroke (0, 0, 0) 1])
  else if isStr ty "highlight" then do
    let colorv := dictGet fs "color" (.str "#FFFF00")
    let opv := dictGet fs "opacity" (.num 0.3)
    let rgb ← parseColorHex (1, 1, 0) colorv
    let nx ← asNum xv
    let ny ← asNum yv
    let nw ← asNum wv
    let nh ← asNum hv
    let op ← asNum opv
    .ok [.drawRect ⟨nx, ny⟩ ⟨nx + nw, ny + nh⟩, .finishFillOnly rgb op]
  else if isStr ty "rectangle" then do
    let colorv := dictGet fs "color" (.str "#000000")
    let swv := dictGet fs "strokeWidth" (.num 2)
    let rgb ← parseColorHex (0, 0, 0) colorv
    let nx ← asNum xv
    let ny ← asNum yv
    let nw ← asNum wv
    let nh ← asNum hv
    let sw ← asNum swv
    .ok [.drawRect ⟨nx, ny⟩ ⟨nx + nw, ny + nh⟩, .finishStroke rgb sw]
  else if isStr ty "line" then do
    -- defaults x + width / y + height are evaluated eagerly by Python
    let x1v := dictGet fs "x1" xv
    let y1v := dictGet fs "y1" yv
    let xw ← pyAdd xv wv
    let x2v := dictGet fs "x2" xw
    let yh ← pyAdd yv hv
    let y2v := dictGet fs "y2" yh
    let colorv := dictGet fs "color" (.str "#000000")
    let swv := dictGet fs "strokeWidth" (.num 2)
    let rgb ← parseColorHex (0, 0, 0) colorv
    let a1 ← asNum x1v
    let b1 ← asNum y1v
    let a2 ← asNum x2v
    let b2 ← asNum y2v
    let sw ← asNum swv
    .ok [.drawLine ⟨a1, b1⟩ ⟨a2, b2⟩, .finishStroke rgb sw]
  else if isStr ty "stamp" || isStr ty "signed_stamp" || isStr ty "signedStamp" ||
      isStr ty "watermark" then
    .ok [.stampLike (strOf ty) fs pageHeight]
  else
    -- no branch matches: Python draws nothing
    .ok []

/-! ### Pages, documents, and the two fill implementations -/

/-- A page of the opened fitz document: its rect and the drawing calls
burned into it so far (the pre-existing PDF content is preserved untouched
by the code and is abstracted away). -/
structure FPage where
  width : ℚ
  height : ℚ
  content : List DrawOp

/-- The opened fitz document: its pages in order. -/
structure FDoc where
  pages : List FPage

/-- Lifecycle events of the fitz `Document` handle a fill attempt opens. -/
inductive REvent where
  | opened
  | closed
  deriving DecidableEq, Repr

/-- The numeric value of a would-be page key (Python numbers and bools
hash and compare equal by value). -/
def keyVal : JVal → Option ℚ
  | .num q => some q
  | .bool b => some (if b then 1 else 0)
  | _ => none

/-- Python hashability of the `page` value used as a dict key. -/
def isHashable : JVal → Bool
  | .arr _ => false
  | .obj _ => false
  | _ => true

/-- Python `==` on the hashable values that reach the page buckets. -/
def pyKeyEq : JVal → JVal → Bool
  | .num x, .num y => x == y
  | .num x, .bool v => x == (if v then 1 else 0)
  | .bool u, .num y => (if u then (1 : ℚ) else 0) == y
  | .bool u, .bool v => u == v
  | .str s, .str t => s == t
  | .null, .null => true
  | _, _ => false

/-- Append an annotation to its page bucket, creating the bucket at the
end on first occurrence (Python dict insertion-order semantics). -/
def bucketAdd : List (JVal × List JVal) → JVal → JVal → List (JVal × List JVal)
  | [], k, a => [(k, [a])]
  | (k', l) :: rest, k, a =>
    if pyKeyEq k' k then (k', l ++ [a]) :: rest
    else (k', l) :: bucketAdd rest k a

/-- The `annotations_by_page` grouping loop shared by both fill
implementations (source lines 212-217 and 250-255):
`page_num = ann.get("page", 1)`. -/
def groupByPage : List JVal → List (JVal × List JVal) →
    Except PyErr (List (JVal × List JVal))
  | [], acc => .ok acc
  | ann :: rest, acc => do
    let fs ← annDict ann
    let k := dictGet fs "page" (.num 1)
    if isHashable k then groupByPage rest (bucketAdd acc k ann)
    else .error (.typeError "unhashable type")

/-- Draw one annotation onto a page (mutating its content). -/
def drawOnPage (pg : FPage) (ann : JVal) : Except PyErr FPage := do
  let ops ← drawAnnotationFitz pg.height ann
  .ok (FPage.mk pg.width pg.height (pg.content ++ ops))

/-- Draw a bucket of annotations onto a page, in input order. -/
def drawList : FPage → List JVal → Except PyErr FPage
  | pg, [] => .ok pg
  | pg, a :: rest => do
    let pg' ← drawOnPage pg a
    drawList pg' rest

/-- `annotations_by_page[page_num]` lookup with Python `==` key matching;
the empty bucket when `page_num not in annotations_by_page`. -/
def bucketFor (groups : List (JVal × List JVal)) (q : ℚ) : List JVal :=
  ((groups.find? (fun kv => pyKeyEq kv.1 (.num q))).map Prod.snd).getD []

/-- The hybrid page loop (source lines 220-228): every page index in
range, drawing its bucket when present. `n` is the 0-based index of the
first page of the remaining list. -/
def processPages (groups : List (JVal × List JVal)) : ℕ → List FPage →
    Except PyErr (List FPage)
  | _, [] => .ok []
  | n, pg :: rest => do
    let pg' ← drawList pg (bucketFor groups ((n : ℚ) + 1))
    let rest' ← processPages groups (n + 1) rest
    .ok (pg' :: rest')

/-- `doc.save(...)` + `doc.close()` on success; the result pairs the
lifecycle trace with the outcome.  Note the source has no `try/finally`:
an error exits before `close`. -/
def saveAndClose (total : ℕ) : Except PyErr (List FPage) →
    List REvent × Except PyErr (FDoc × ℕ)
  | .error e => ([.opened], .error e)
  | .ok pages' => ([.opened, .closed], .ok (FDoc.mk pages', total))

/-- The fallible body of `_fill_pdf_hybrid` after `fitz.open`. -/
def hybridCore (doc : FDoc) (anns : List JVal) : Except PyErr (List FPage) := do
  let groups ← groupByPage anns []
  processPages groups 0 doc.pages

/-- `_fill_pdf_hybrid(pdf_bytes, annotations)` (source lines 196-235):
open, group by page, draw buckets on every in-range page, save with
compaction (abstracted), close.  Returns the lifecycle trace of the
Document handle alongside the `(bytes, total_pages)` result. -/
def hybridFill (doc : FDoc) (anns : List JVal) :
    List REvent × Except PyErr (FDoc × ℕ) :=
  saveAndClose doc.pages.length (hybridCore doc anns)

/-- `page_num < 1 or page_num > total_pages` on a bucket key (source line
259); comparing a non-numeric key with an int raises `TypeError`. -/
def pageOutOfRange (k : JVal) (total : ℕ) : Except PyErr Bool :=
  match k with
  | .num q => .ok (decide (q < 1) || decide ((total : ℚ) < q))
  | .bool b => .ok (decide ((if b then (1 : ℚ) else 0) < 1) ||
      decide ((total : ℚ) < (if b then (1 : ℚ) else 0)))
  | _ => .error (.typeError "not supported between instances")

/-- `doc[page_num - 1]` index computation: fitz document subscripts must
be integers (`True` counts as 1). -/
def pageIndex : JVal → Except PyErr ℕ
  | .num q =>
    if q.den = 1 then .ok (q.num.toNat - 1)
    else .error (.typeError "document indices must be integers")
  | .bool _ => .ok 0
  | _ => .error (.typeError "document indices must be integers")

/-- `doc[i]`. -/
def getPage (pgs : List FPage) (i : ℕ) : Except PyErr FPage :=
  (pgs.get? i).elim (.error (.typeError "page not in document")) .ok

/-- The per-bucket loop of `_fill_pdf_with_fitz` (source lines 258-267):
skip out-of-range buckets, draw the rest onto their page. -/
def fitzGroups (total : ℕ) : List (JVal × List JVal) → List FPage →
    Except PyErr (List FPage)
  | [], pgs => .ok pgs
  | (k, l) :: rest, pgs => do
    let oob ← pageOutOfRange k total
    if oob then fitzGroups total rest pgs
    else do
      let i ← pageIndex k
      let pg ← getPage pgs i
      let pg' ← drawList pg l
      fitzGroups total rest (pgs.set i pg')

/-- The fallible body of `_fill_pdf_with_fitz` after `fitz.open`. -/
def fitzCore (doc : FDoc) (anns : List JVal) : Except PyErr (List FPage) := do
  let groups ← groupByPage anns []
  fitzGroups doc.pages.length groups doc.pages

/-- `_fill_pdf_with_fitz(pdf_bytes, annotations)` (source lines 237-274). -/
def fitzFill (doc : FDoc) (anns : List JVal) :
    List REvent × Except PyErr (FDoc × ℕ) :=
  saveAndClose doc.pages.length (fitzCore doc anns)

/-! ### `fill_pdf`: primary/fallback orchestration -/

/-- Errors escaping `fill_pdf`. -/
inductive FillErr where
  /-- an exception raised by `_normalize_annotations`, which runs before
  the `try` block and so propagates as-is -/
  | uncaught (e : PyErr)
  /-- the `FileProcessingError(f"Failed to fill PDF: ...")` of line 133 -/
  | fileProcessing (msg : String) (cause : PyErr)
  deriving DecidableEq, Repr

/-- The spec's `AnnotationRenderError`: the `FileProcessingError` raised at
line 133 when the fallback implementation has also raised. -/
def annotationRenderError (cause : PyErr) : FillErr :=
  .fileProcessing "Failed to fill PDF" cause

/-- The `except` arm of `fill_pdf`: run the fallback; wrap its failure. -/
def fallbackStep (ev₁ : List REvent) :
    List REvent × Except PyErr (FDoc × ℕ) → List REvent × Except FillErr (FDoc × ℕ)
  | (ev₂, .ok r) => (ev₁ ++ ev₂, .ok r)
  | (ev₂, .error e2) => (ev₁ ++ ev₂, .error (annotationRenderError e2))

/-- The `try` arm of `fill_pdf`: return the primary result, or fall back. -/
def primaryStep (doc : FDoc) (na : List JVal) :
    List REvent × Except PyErr (FDoc × ℕ) → List REvent × Except FillErr (FDoc × ℕ)
  | (ev₁, .ok r) => (ev₁, .ok r)
  | (ev₁, .error _) => fallbackStep ev₁ (fitzFill doc na)

/-- Dispatch on the result of `_normalize_annotations`. -/
def fillFromNormalized (doc : FDoc) : Except PyErr (List JVal) →
    List REvent × Except FillErr (FDoc × ℕ)
  | .error e => ([], .error (.uncaught e))
  | .ok na => primaryStep doc na (hybridFill doc na)

/-- `fill_pdf(pdf_bytes, annotations, canvas_scale)` (source lines
101-133): normalize, try the hybrid implementation, fall back to the
fitz-only implementation on any exception, and fail with the
`FileProcessingError` (`AnnotationRenderError`) when both raise. -/
def fillPdf (doc : FDoc) (anns : List JVal) (s : ℚ) :
    List REvent × Except FillErr (FDoc × ℕ) :=
  fillFromNormalized doc (normalizeAnnotations anns s)

/-! ### `render_page_to_image` -/

/-- The rendered page: PNG bytes and pixel dimensions are produced by the
fitz pixmap and abstracted as the page content plus the zoom matrix. -/
structure RenderedImage where
  page : FPage
  zoom : ℚ

/-- The error escaping `render_page_to_image`: the generic handler at
lines 98-99 re-wraps every exception — including the `BadRequestError`
raised for an invalid page at line 76 — into
`FileProcessingError(f"Failed to render PDF page: {str(e)}")`.  The
message prefix is kept verbatim and the offending page number is carried
as data (Python interpolates it into the string). -/
inductive RenderErr where
  | fileProcessing (msg : String) (page : ℤ)
  deriving DecidableEq, Repr

/-- `render_page_to_image(pdf_bytes, page_number, scale)` (source lines
63-99). -/
def renderPageToImage (doc : FDoc) (pageNumber : ℤ) (scale : ℚ) :
    Except RenderErr RenderedImage :=
  if pageNumber < 1 ∨ (doc.pages.length : ℤ) < pageNumber then
    .error (.fileProcessing
      "Failed to render PDF page: Invalid page number: " pageNumber)
  else
    (doc.pages.get? (pageNumber - 1).toNat).elim
      (.error (.fileProcessing "Failed to render PDF page: " pageNumber))
      (fun pg => .ok (RenderedImage.mk pg scale))

/-! ### C1: primary failure falls back, double failure is fatal -/

/-- C1: whenever the hybrid (primary) implementation raises on the
normalized annotations, `fill_pdf` runs the fitz (fallback) implementation
on the very same normalized annotations and returns its result; if the
fallback also raises, `fill_pdf` fails with the `FileProcessingError`
modelling the spec's `AnnotationRenderError`, and no output document is
produced (the input document value is never returned — the embedding is
pure, so the input bytes are untouched by construction). -/
theorem fill_fallback_chain (doc : FDoc) (anns na : List JVal) (s : ℚ) (e1 : PyErr)
    (hn : normalizeAnnotations anns s = .ok na)
    (hfail : (hybridFill doc na).2 = .error e1) :
    (∀ r, (fitzFill doc na).2 = .ok r → (fillPdf doc anns s).2 = .ok r) ∧
    (∀ e2, (fitzFill doc na).2 = .error e2 →
      (fillPdf doc anns s).2 = .error (annotationRenderError e2) ∧
      ∀ out, (fillPdf doc anns s).2 ≠ .ok out) := by
  unfold fillPdf
  rw [hn]
  cases hhyb : hybridFill doc na with
  | mk ev1 r1 =>
    rw [hhyb] at hfail
    simp only at hfail
    subst hfail
    cases hfitz : fitzFill doc na with
    | mk ev2 r2 =>
      have hstep : fillFromNormalized doc (.ok na) = fallbackStep ev1 (ev2, r2) := by
        simp [fillFromNormalized, primaryStep, hhyb, hfitz]
      cases r2 with
      | ok r =>
        refine ⟨fun r' hr' => ?_, fun e2 he2 => ?_⟩
        · simp only at hr'
          injection hr' with h
          subst h
          rw [hstep]
          simp [fallbackStep]
        · simp at he2
      | error e2 =>
        refine ⟨fun r' hr' => ?_, fun e2' he2 => ?_⟩
        · simp at hr'
        · simp only at he2
          injection he2 with h
          subst h
          rw [hstep]
          exact ⟨by simp [fallbackStep], fun out => by simp [fallbackStep]⟩

/-- Witness for C1: a one-page 612×792 document and a text annotation with
the non-string color `0`.  Hex slicing then raises an uncaught `TypeError`
in both implementations, and `fill_pdf` fails with the wrapped
`FileProcessingError` while producing no output. -/
theorem fill_fallback_chain_witness :
    normalizeAnnotations [.obj [("type", .str "text"), ("color", .num 0)]] 1
      = .ok [.obj [("type", .str "text"), ("color", .num 0)]] ∧
    (hybridFill (FDoc.mk [FPage.mk 612 792 []])
        [.obj [("type", .str "text"), ("color", .num 0)]]).2
      = .error (.typeError "color value is not subscriptable") ∧
    (fitzFill (FDoc.mk [FPage.mk 612 792 []])
        [.obj [("type", .str "text"), ("color", .num 0)]]).2
      = .error (.typeError "color value is not subscriptable") ∧
    (fillPdf (FDoc.mk [FPage.mk 612 792 []])
        [.obj [("type", .str "text"), ("color", .num 0)]] 1).2
      = .error (annotationRenderError (.typeError "color value is not subscriptable")) := by
  have hn : normalizeAnnotations [.obj [("type", .str "text"), ("color", .num 0)]] 1
      = .ok [.obj [("type", .str "text"), ("color", .num 0)]] := by
    simp [normalizeAnnotations]
  have hh : (hybridFill (FDoc.mk [FPage.mk 612 792 []])
      [.obj [("type", .str "text"), ("color", .num 0)]]).2
      = .error (.typeError "color value is not subscriptable") := by
    simp [hybridFill, saveAndClose, hybridCore, groupByPage, bucketAdd, processPages,
      bucketFor, drawList, drawOnPage, drawAnnotationFitz, annDict, dictGet, isStr,
      parseColorHex, pyKeyEq, isHashable, lookup_cons, ok_bind, error_bind, pure_eq_ok]
  have hf : (fitzFill (FDoc.mk [FPage.mk 612 792 []])
      [.obj [("type", .str "text"), ("color", .num 0)]]).2
      = .error (.typeError "color value is not subscriptable") := by
    simp [fitzFill, saveAndClose, fitzCore, groupByPage, bucketAdd, fitzGroups,
      pageOutOfRange, pageIndex, getPage, drawList, drawOnPage, drawAnnotationFitz,
      annDict, dictGet, isStr, parseColorHex, pyKeyEq, isHashable, lookup_cons,
      ok_bind, error_bind, pure_eq_ok]
  exact ⟨hn, hh, hf,
    ((fill_fallback_chain _ _ _ 1 _ hn hh).2 _ hf).1⟩

/-! ### C5: direct render of an out-of-range page is fatal -/

/-- C5: for a page number outside `[1, pageCount]`,
`render_page_to_image` fails with the invalid-page error (raised as
`BadRequestError("Invalid page number: N")` at line 76 and surfaced
through the generic handler as `FileProcessingError("Failed to render PDF
page: Invalid page number: N")`), and never returns image bytes. -/
theorem render_invalid_page_fatal (doc : FDoc) (pageNumber : ℤ) (scale : ℚ)
    (h : pageNumber < 1 ∨ (doc.pages.length : ℤ) < pageNumber) :
    renderPageToImage doc pageNumber scale
      = .error (.fileProcessing
          "Failed to render PDF page: Invalid page number: " pageNumber) ∧
    ∀ img, renderPageToImage doc pageNumber scale ≠ .ok img := by
  unfold renderPageToImage
  rw [if_pos h]
  exact ⟨rfl, by simp⟩

/-- Witness for C5: asking for page 2 of a one-page document fails with
the invalid-page error and yields no image. -/
theorem render_invalid_page_fatal_witness :
    renderPageToImage (FDoc.mk [FPage.mk 612 792 []]) 2 2
      = .error (.fileProcessing "Failed to render PDF page: Invalid page number: " 2) ∧
    ∀ img, renderPageToImage (FDoc.mk [FPage.mk 612 792 []]) 2 2 ≠ .ok img :=
  render_invalid_page_fatal (FDoc.mk [FPage.mk 612 792 []]) 2 2 (by norm_num)

/-! ### C6: the Document handle is NOT closed on every exit path -/

/-- C6 refuted (code bug): on a one-page document with a text annotation
whose `color` is the number `0`, the drawing call raises inside both fill
implementations; neither has a `try/finally`, so both exit without
`doc.close()`.  The lifecycle trace of the whole `fill_pdf` call records
two opens and no close while the call fails — contradicting the claim
(and §5 of the spec) that every exit path closes the handle.  For
contrast, the successful empty fill does close its handle. -/
theorem fill_handle_leak_on_draw_exception :
    ((fillPdf (FDoc.mk [FPage.mk 612 792 []])
        [.obj [("type", .str "text"), ("color", .num 0)]] 1).1
      = [.opened, .opened] ∧
     REvent.closed ∉ (fillPdf (FDoc.mk [FPage.mk 612 792 []])
        [.obj [("type", .str "text"), ("color", .num 0)]] 1).1 ∧
     (fillPdf (FDoc.mk [FPage.mk 612 792 []])
        [.obj [("type", .str "text"), ("color", .num 0)]] 1).2
      = .error (annotationRenderError (.typeError "color value is not subscriptable"))) ∧
    (fillPdf (FDoc.mk [FPage.mk 612 792 []]) [] 1).1 = [.opened, .closed] := by
  have htrace : (fillPdf (FDoc.mk [FPage.mk 612 792 []])
      [.obj [("type", .str "text"), ("color", .num 0)]] 1).1 = [.opened, .opened] := by
    simp [fillPdf, fillFromNormalized, normalizeAnnotations, primaryStep, fallbackStep,
      hybridFill, fitzFill, saveAndClose, hybridCore, fitzCore, groupByPage, bucketAdd,
      processPages, fitzGroups, bucketFor, drawList, drawOnPage, drawAnnotationFitz,
      annDict, dictGet, isStr, parseColorHex, pyKeyEq, isHashable, pageOutOfRange,
      pageIndex, getPage, lookup_cons, ok_bind, error_bind, pure_eq_ok]
  refine ⟨⟨htrace, ?_, ?_⟩, ?_⟩
  · rw [htrace]; decide
  · simp [fillPdf, fillFromNormalized, normalizeAnnotations, primaryStep, fallbackStep,
      hybridFill, fitzFill, saveAndClose, hybridCore, fitzCore, groupByPage, bucketAdd,
      processPages, fitzGroups, bucketFor, drawList, drawOnPage, drawAnnotationFitz,
      annDict, dictGet, isStr, parseColorHex, pyKeyEq, isHashable, pageOutOfRange,
      pageIndex, getPage, lookup_cons, ok_bind, error_bind, pure_eq_ok,
      annotationRenderError]
  · simp [fillPdf, fillFromNormalized, normalizeAnnotations, primaryStep, fallbackStep,
      hybridFill, fitzFill, saveAndClose, hybridCore, fitzCore, groupByPage, bucketAdd,
      processPages, fitzGroups, bucketFor, drawList, drawOnPage, drawAnnotationFitz,
      annDict, dictGet, isStr, parseColorHex, pyKeyEq, isHashable, pageOutOfRange,
      pageIndex, getPage, lookup_cons, ok_bind, error_bind, pure_eq_ok]

/-! ### C10: a missing "page" field targets page 1 -/

theorem bucketFor_num_singleton (p q : ℚ) (l : List JVal) (hq : p ≠ q) :
    bucketFor [(.num p, l)] q = [] := by
  unfold bucketFor
  rw [List.find?_cons_of_neg, List.find?_nil]
  · rfl
  · simp [pyKeyEq, hq]

theorem processPages_of_empty_buckets (groups : List (JVal × List JVal))
    (pgs : List FPage) :
    ∀ n : ℕ, (∀ j : ℕ, n < j → j ≤ n + pgs.length → bucketFor groups (j : ℚ) = []) →
    processPages groups n pgs = .ok pgs := by
  induction pgs with
  | nil => intro n _; rfl
  | cons pg rest ih =>
    intro n h
    have h1 : bucketFor groups ((n : ℚ) + 1) = [] := by
      have := h (n + 1) (by omega) (by simp)
      push_cast at this
      exact this
    rw [processPages, h1]
    simp [drawList, ok_bind,
      ih (n + 1) (fun j hj hj' => h j (by omega) (by simp at hj' ⊢; omega)), pure_eq_ok]

set_option maxHeartbeats 800000 in
/-- C10: an annotation record with no `"page"` field defaults to page 1
(`ann.get("page", 1)` in both implementations, lines 214 and 252): on any
document with at least one page, both `_fill_pdf_hybrid` and
`_fill_pdf_with_fitz` draw it on page 1 — the first page's content is
extended by exactly its drawing calls and all other pages are untouched. -/
theorem missing_page_field_targets_page_one (doc : FDoc) (pg : FPage)
    (rest : List FPage) (a : JVal) (fs : List (String × JVal)) (ops : List DrawOp)
    (hdoc : doc.pages = pg :: rest)
    (ha : a = .obj fs) (hnopage : fs.lookup "page" = none)
    (hdraw : drawAnnotationFitz pg.height a = .ok ops) :
    dictGet fs "page" (.num 1) = .num 1 ∧
    (hybridFill doc [a]).2
      = .ok (FDoc.mk (FPage.mk pg.width pg.height (pg.content ++ ops) :: rest),
             doc.pages.length) ∧
    (fitzFill doc [a]).2
      = .ok (FDoc.mk (FPage.mk pg.width pg.height (pg.content ++ ops) :: rest),
             doc.pages.length) := by
  have hkey : dictGet fs "page" (.num 1) = .num 1 := by
    simp [dictGet, hnopage]
  have hgroups : groupByPage [a] [] = .ok [(.num 1, [a])] := by
    simp [groupByPage, ha, annDict, hkey, isHashable, bucketAdd, ok_bind]
  have hdl : drawList pg [a] = .ok (FPage.mk pg.width pg.height (pg.content ++ ops)) := by
    simp [drawList, drawOnPage, hdraw, ok_bind, pure_eq_ok]
  refine ⟨hkey, ?_, ?_⟩
  · unfold hybridFill hybridCore
    rw [hgroups]
    simp only [ok_bind]
    rw [hdoc, processPages]
    have hb : bucketFor [(JVal.num 1, [a])] (((0 : ℕ) : ℚ) + 1) = [a] := by
      unfold bucketFor
      rw [List.find?_cons_of_pos]
      · rfl
      · simp [pyKeyEq]
    rw [hb, hdl]
    simp only [ok_bind]
    rw [processPages_of_empty_buckets _ _ 1 (fun j hj _ =>
      bucketFor_num_singleton 1 j [a] (by
        intro he
        have : (1 : ℕ) = j := by exact_mod_cast he
        omega))]
    simp [saveAndClose, pure_eq_ok, hdoc, ok_bind]
  · unfold fitzFill fitzCore
    rw [hgroups]
    simp only [ok_bind]
    rw [hdoc, fitzGroups]
    have hlen : (1 : ℚ) ≤ ((pg :: rest).length : ℚ) := by
      have : 1 ≤ (pg :: rest).length := by simp
      exact_mod_cast this
    have hoob : pageOutOfRange (.num 1) (pg :: rest).length = .ok false := by
      simp [pageOutOfRange, decide_eq_false (not_lt.mpr hlen)]
    rw [hoob]
    simp only [ok_bind, Bool.false_eq_true, if_false]
    have hpi : pageIndex (.num 1) = .ok 0 := by norm_num [pageIndex]
    rw [hpi]
    simp only [ok_bind]
    rw [show getPage (pg :: rest) 0 = .ok pg from rfl]
    simp only [ok_bind]
    rw [hdl]
    simp only [ok_bind]
    rw [show List.set (pg :: rest) 0 (FPage.mk pg.width pg.height (pg.content ++ ops))
      = FPage.mk pg.width pg.height (pg.content ++ ops) :: rest from rfl]
    rw [fitzGroups]
    simp [saveAndClose, hdoc, ok_bind]

set_option maxHeartbeats 800000 in
theorem parse_black : parseColorHex (0 : ℚ × ℚ × ℚ) (.str "#000000")
    = .ok (0 : ℚ × ℚ × ℚ) := by
  simp [parseColorHex, pyHexInt, hexTriple, isHexDigitChar, hexDigitVal]

/-- Witness for C10: a page-less text annotation on a two-page document is
drawn on page 1 by both implementations. -/
theorem missing_page_field_targets_page_one_witness :
    drawAnnotationFitz 792 (.obj [("type", .str "text"), ("text", .str "hi"),
        ("x", .num 10), ("y", .num 20)])
      = .ok [.insertText ⟨10, 20 + 12⟩ "hi" 12 (0, 0, 0)] ∧
    (hybridFill (FDoc.mk [FPage.mk 612 792 [], FPage.mk 612 792 []])
        [.obj [("type", .str "text"), ("text", .str "hi"),
               ("x", .num 10), ("y", .num 20)]]).2
      = .ok (FDoc.mk [FPage.mk 612 792 [.insertText ⟨10, 20 + 12⟩ "hi" 12 (0, 0, 0)],
                      FPage.mk 612 792 []], 2) ∧
    (fitzFill (FDoc.mk [FPage.mk 612 792 [], FPage.mk 612 792 []])
        [.obj [("type", .str "text"), ("text", .str "hi"),
               ("x", .num 10), ("y", .num 20)]]).2
      = .ok (FDoc.mk [FPage.mk 612 792 [.insertText ⟨10, 20 + 12⟩ "hi" 12 (0, 0, 0)],
                      FPage.mk 612 792 []], 2) := by
  have hdraw : drawAnnotationFitz 792 (.obj [("type", .str "text"), ("text", .str "hi"),
      ("x", .num 10), ("y", .num 20)])
      = .ok [.insertText ⟨10, 20 + 12⟩ "hi" 12 (0, 0, 0)] := by
    simp [drawAnnotationFitz, annDict, dictGet, isStr, parse_black, pyAdd, asNum, asStr,
      lookup_cons, ok_bind, error_bind, pure_eq_ok]
  have h := missing_page_field_targets_page_one
    (FDoc.mk [FPage.mk 612 792 [], FPage.mk 612 792 []])
    (FPage.mk 612 792 []) [FPage.mk 612 792 []]
    (.obj [("type", .str "text"), ("text", .str "hi"), ("x", .num 10), ("y", .num 20)])
    [("type", .str "text"), ("text", .str "hi"), ("x", .num 10), ("y", .num 20)]
    [.insertText ⟨10, 20 + 12⟩ "hi" 12 (0, 0, 0)]
    rfl rfl (by simp [lookup_cons]) hdraw
  exact ⟨hdraw, h.2.1, h.2.2⟩

/-! ### C3: out-of-range pages are silently dropped by both fills -/

theorem pyKeyEq_num_iff (k : JVal) (p : ℚ) :
    pyKeyEq k (.num p) = true ↔ keyVal k = some p := by
  cases k <;> simp [pyKeyEq, keyVal]

theorem pyKeyEq_symm (a b : JVal) : pyKeyEq a b = pyKeyEq b a := by
  cases a <;> cases b <;> simp [pyKeyEq, eq_comm]

theorem pyKeyEq_of_numeric {k k' : JVal} {q : ℚ} (hk : keyVal k = some q) :
    pyKeyEq k' k = true ↔ keyVal k' = some q := by
  cases k with
  | num y =>
    simp only [keyVal, Option.some.injEq] at hk
    subst hk
    exact pyKeyEq_num_iff k' y
  | bool b =>
    simp only [keyVal, Option.some.injEq] at hk
    subst hk
    cases k' with
    | num x => simp [pyKeyEq, keyVal]
    | bool u => cases u <;> cases b <;> simp [pyKeyEq, keyVal]
    | str t => simp [pyKeyEq, keyVal]
    | arr xs => simp [pyKeyEq, keyVal]
    | obj gs => simp [pyKeyEq, keyVal]
    | null => simp [pyKeyEq, keyVal]
  | str t => simp [keyVal] at hk
  | arr xs => simp [keyVal] at hk
  | obj gs => simp [keyVal] at hk
  | null => simp [keyVal] at hk

/-- Buckets whose key is Python-equal to the page value `p`, removed. -/
def removeKeyClass (p : ℚ) (g : List (JVal × List JVal)) : List (JVal × List JVal) :=
  g.filter (fun kv => !pyKeyEq kv.1 (.num p))

theorem removeKeyClass_bucketAdd_class {p : ℚ} {k : JVal}
    (hk : pyKeyEq k (.num p) = true) (g : List (JVal × List JVal)) (a : JVal) :
    removeKeyClass p (bucketAdd g k a) = removeKeyClass p g := by
  induction g with
  | nil => simp [bucketAdd, removeKeyClass, hk]
  | cons hd tl ih =>
    obtain ⟨k', l⟩ := hd
    by_cases he : pyKeyEq k' k = true
    · have hk' : pyKeyEq k' (.num p) = true := by
        rw [pyKeyEq_num_iff]
        exact (pyKeyEq_of_numeric ((pyKeyEq_num_iff k p).mp hk)).mp he
      simp [bucketAdd, he, removeKeyClass, hk']
    · simp only [bucketAdd, he, if_false, Bool.false_eq_true]
      by_cases hkp : pyKeyEq k' (.num p) = true
      · simp [removeKeyClass, hkp] at ih ⊢
        exact ih
      · simp only [removeKeyClass, List.filter] at ih ⊢
        simp [hkp, ih]

theorem removeKeyClass_bucketAdd_notclass {p : ℚ} {k : JVal}
    (hk : pyKeyEq k (.num p) = false) (g : List (JVal × List JVal)) (a : JVal) :
    removeKeyClass p (bucketAdd g k a) = bucketAdd (removeKeyClass p g) k a := by
  induction g with
  | nil => simp [bucketAdd, removeKeyClass, hk]
  | cons hd tl ih =>
    obtain ⟨k', l⟩ := hd
    by_cases he : pyKeyEq k' k = true
    · -- the matched bucket's key is not class-p either
      have hk' : pyKeyEq k' (.num p) = false := by
        by_contra hc0
        simp only [Bool.not_eq_false] at hc0
        have hc : keyVal k' = some p := (pyKeyEq_num_iff k' p).mp hc0
        have hsk : pyKeyEq k k' = true := by rw [pyKeyEq_symm]; exact he
        have hkv : keyVal k = some p := (pyKeyEq_of_numeric hc).mp hsk
        rw [← pyKeyEq_num_iff k p, hk] at hkv
        cases hkv
      simp [bucketAdd, he, removeKeyClass, hk']
    · by_cases hkp : pyKeyEq k' (.num p) = true
      · simp [bucketAdd, he, removeKeyClass, hkp] at ih ⊢
        exact ih
      · simp only [removeKeyClass, List.filter, bucketAdd, he, if_false,
          Bool.false_eq_true] at ih ⊢
        simp [hkp, he, ih, bucketAdd]

/-- Inserting one annotation whose page value is Python-equal to `p`
changes the grouping only inside the `p` equivalence class. -/
theorem groupByPage_removeKeyClass (p : ℚ) :
    ∀ (l : List JVal) (acc' acc : List (JVal × List JVal)),
    removeKeyClass p acc' = removeKeyClass p acc →
    (∃ e, groupByPage l acc' = .error e ∧ groupByPage l acc = .error e) ∨
    (∃ g' g, groupByPage l acc' = .ok g' ∧ groupByPage l acc = .ok g ∧
      removeKeyClass p g' = removeKeyClass p g) := by
  intro l
  induction l with
  | nil => intro acc' acc h; exact Or.inr ⟨acc', acc, rfl, rfl, h⟩
  | cons ann rest ih =>
    intro acc' acc h
    cases hfs : annDict ann with
    | error e =>
      refine Or.inl ⟨e, ?_, ?_⟩ <;> simp [groupByPage, hfs, error_bind]
    | ok fs =>
      by_cases hh : isHashable (dictGet fs "page" (.num 1)) = true
      · have hstep' : groupByPage (ann :: rest) acc'
            = groupByPage rest (bucketAdd acc' (dictGet fs "page" (.num 1)) ann) := by
          simp [groupByPage, hfs, ok_bind, hh]
        have hstep : groupByPage (ann :: rest) acc
            = groupByPage rest (bucketAdd acc (dictGet fs "page" (.num 1)) ann) := by
          simp [groupByPage, hfs, ok_bind, hh]
        rw [hstep', hstep]
        apply ih
        by_cases hkp : pyKeyEq (dictGet fs "page" (.num 1)) (.num p) = true
        · rw [removeKeyClass_bucketAdd_class hkp, removeKeyClass_bucketAdd_class hkp]
          exact h
        · rw [removeKeyClass_bucketAdd_notclass (Bool.not_eq_true _ ▸ hkp),
            removeKeyClass_bucketAdd_notclass (Bool.not_eq_true _ ▸ hkp), h]
      · refine Or.inl ⟨.typeError "unhashable type", ?_, ?_⟩ <;>
          simp [groupByPage, hfs, ok_bind, hh]

theorem bucketFor_removeKeyClass {p q : ℚ} (hpq : q ≠ p)
    (g : List (JVal × List JVal)) :
    bucketFor (removeKeyClass p g) q = bucketFor g q := by
  induction g with
  | nil => rfl
  | cons hd tl ih =>
    obtain ⟨k, l⟩ := hd
    by_cases hq : pyKeyEq k (.num q) = true
    · have hkp : pyKeyEq k (.num p) = false := by
        by_contra hc
        simp only [Bool.not_eq_false, pyKeyEq_num_iff] at hc
        rw [pyKeyEq_num_iff, hc, Option.some.injEq] at hq
        exact hpq hq.symm
      unfold removeKeyClass bucketFor
      simp only [List.filter, hkp, Bool.not_false]
      rw [List.find?_cons_of_pos, List.find?_cons_of_pos] <;> simp [hq]
    · unfold removeKeyClass bucketFor at ih ⊢
      by_cases hkp : pyKeyEq k (.num p) = true
      · simp only [List.filter, hkp, Bool.not_true]
        rw [List.find?_cons_of_neg]
        · exact ih
        · simp [hq]
      · simp only [List.filter, hkp, Bool.not_false]
        rw [List.find?_cons_of_neg, List.find?_cons_of_neg]
        · exact ih
        all_goals simp [hq]

theorem processPages_congr {g' g : List (JVal × List JVal)} :
    ∀ (n : ℕ) (pgs : List FPage),
    (∀ j : ℕ, n < j → j ≤ n + pgs.length →
      bucketFor g' (j : ℚ) = bucketFor g (j : ℚ)) →
    processPages g' n pgs = processPages g n pgs := by
  intro n pgs
  induction pgs generalizing n with
  | nil => intro _; rfl
  | cons pg rest ih =>
    intro h
    have h1 : bucketFor g' ((n : ℚ) + 1) = bucketFor g ((n : ℚ) + 1) := by
      have := h (n + 1) (by omega) (by simp)
      push_cast at this
      exact this
    rw [processPages, processPages, h1,
      ih (n + 1) (fun j hj hj' => h j (by omega) (by simp at hj' ⊢; omega))]

/-- Class-`p` buckets are skipped by the fitz per-bucket loop when `p` is
out of range, so they can be filtered out without changing the result. -/
theorem fitzGroups_removeKeyClass {p : ℚ} {total : ℕ}
    (hoob : ∀ k : JVal, pyKeyEq k (.num p) = true →
      pageOutOfRange k total = .ok true) :
    ∀ (g : List (JVal × List JVal)) (pgs : List FPage),
    fitzGroups total g pgs = fitzGroups total (removeKeyClass p g) pgs := by
  intro g
  induction g with
  | nil => intro pgs; rfl
  | cons hd tl ih =>
    obtain ⟨k, l⟩ := hd
    intro pgs
    by_cases hkp : pyKeyEq k (.num p) = true
    · have hk := hoob k hkp
      rw [fitzGroups]
      rw [hk]
      simp only [ok_bind, if_true]
      unfold removeKeyClass
      simp only [List.filter, hkp, Bool.not_true]
      exact ih pgs
    · have hfil : removeKeyClass p ((k, l) :: tl) = (k, l) :: removeKeyClass p tl := by
        unfold removeKeyClass
        simp [List.filter, hkp]
      rw [hfil, fitzGroups, fitzGroups]
      cases hor : pageOutOfRange k total with
      | error e => simp [error_bind]
      | ok b =>
        cases b with
        | true => simp only [ok_bind, if_true]; exact ih pgs
        | false =>
          simp only [ok_bind, Bool.false_eq_true, if_false]
          cases pageIndex k with
          | error e => simp [error_bind]
          | ok i =>
            simp only [ok_bind]
            cases getPage pgs i with
            | error e => simp [error_bind]
            | ok pg =>
              simp only [ok_bind]
              cases drawList pg l with
              | error e => simp [error_bind]
              | ok pg' =>
                simp only [ok_bind]
                exact ih _

theorem pageOutOfRange_of_class {p : ℚ} {total : ℕ}
    (hout : p < 1 ∨ (total : ℚ) < p) :
    ∀ k : JVal, pyKeyEq k (.num p) = true → pageOutOfRange k total = .ok true := by
  intro k hk
  rw [pyKeyEq_num_iff] at hk
  cases k <;> simp [keyVal] at hk <;> simp [pageOutOfRange]
  · rename_i q
    subst hk
    rcases hout with h | h
    · exact Or.inl h
    · exact Or.inr h
  · rename_i b
    rw [hk]
    rcases hout with h | h
    · exact Or.inl h
    · exact Or.inr h

/-- C3: an annotation whose (numeric) target page lies outside
`[1, pageCount]` is silently dropped by both fill implementations: the
result — success or failure, document content, trace — is identical to
the same request without that annotation, and a fill consisting of only
that annotation succeeds with the document unchanged. -/
theorem out_of_range_page_dropped (doc : FDoc) (l1 l2 : List JVal)
    (a : JVal) (fs : List (String × JVal)) (p : ℚ)
    (ha : a = .obj fs) (hp : dictGet fs "page" (.num 1) = .num p)
    (hout : p < 1 ∨ (doc.pages.length : ℚ) < p) :
    hybridFill doc (l1 ++ a :: l2) = hybridFill doc (l1 ++ l2) ∧
    fitzFill doc (l1 ++ a :: l2) = fitzFill doc (l1 ++ l2) ∧
    (hybridFill doc [a]).2 = .ok (doc, doc.pages.length) ∧
    (fitzFill doc [a]).2 = .ok (doc, doc.pages.length) := by
  -- the grouping stage with and without `a`
  have hgappend : ∀ (l : List JVal) (acc : List (JVal × List JVal)) (rest : List JVal),
      groupByPage (l ++ rest) acc
        = groupByPage l acc >>= fun acc' => groupByPage rest acc' := by
    intro l
    induction l with
    | nil => intro acc rest; simp [groupByPage, ok_bind]
    | cons x xs ih =>
      intro acc rest
      cases hfs : annDict x with
      | error e => simp [groupByPage, hfs, error_bind]
      | ok fs' =>
        by_cases hh : isHashable (dictGet fs' "page" (.num 1)) = true
        · simp [groupByPage, hfs, ok_bind, hh, ih]
        · simp [groupByPage, hfs, ok_bind, hh, error_bind]
  have hastep : ∀ acc, groupByPage (a :: l2) acc
      = groupByPage l2 (bucketAdd acc (.num p) a) := by
    intro acc
    simp [groupByPage, ha, annDict, ok_bind, hp, isHashable]
  have hrel := groupByPage_removeKeyClass p l2
  have hcores : hybridCore doc (l1 ++ a :: l2) = hybridCore doc (l1 ++ l2) ∧
      fitzCore doc (l1 ++ a :: l2) = fitzCore doc (l1 ++ l2) := by
    unfold hybridCore fitzCore
    rw [hgappend, hgappend]
    cases hpre : groupByPage l1 [] with
    | error e => simp [error_bind]
    | ok acc1 =>
      simp only [ok_bind]
      rw [hastep]
      have hacc : removeKeyClass p (bucketAdd acc1 (.num p) a) = removeKeyClass p acc1 :=
        removeKeyClass_bucketAdd_class (by rw [pyKeyEq_num_iff]; rfl) acc1 a
      rcases hrel (bucketAdd acc1 (.num p) a) acc1 hacc with
        ⟨e, he', he⟩ | ⟨g', g, hg', hg, hgg⟩
      · rw [he', he]
        simp [error_bind]
      · rw [hg', hg]
        simp only [ok_bind]
        constructor
        · -- hybrid page loop only reads in-range buckets
          apply processPages_congr
          intro j hj hj'
          have hjp : (j : ℚ) ≠ p := by
            rcases hout with h | h
            · intro he
              rw [← he] at h
              have : (0 : ℚ) < 1 := by norm_num
              have hj0 : (1 : ℚ) ≤ (j : ℚ) := by exact_mod_cast hj
              linarith
            · intro he
              rw [← he] at h
              have : (j : ℚ) ≤ (doc.pages.length : ℚ) := by
                simp only [zero_add] at hj'
                exact_mod_cast hj'
              linarith
          rw [← bucketFor_removeKeyClass hjp g', hgg,
            bucketFor_removeKeyClass hjp g]
        · -- fitz loop skips every class-p bucket
          have hoob := pageOutOfRange_of_class hout
          rw [fitzGroups_removeKeyClass hoob g', hgg,
            ← fitzGroups_removeKeyClass hoob g]
  have hsingle : groupByPage [a] [] = .ok [(.num p, [a])] := by
    simp [groupByPage, ha, annDict, ok_bind, hp, isHashable, bucketAdd]
  refine ⟨?_, ?_, ?_, ?_⟩
  · unfold hybridFill; rw [hcores.1]
  · unfold fitzFill; rw [hcores.2]
  · unfold hybridFill hybridCore
    rw [hsingle]
    simp only [ok_bind]
    rw [processPages_of_empty_buckets _ _ 0 (fun j hj hj' => by
      apply bucketFor_num_singleton
      rcases hout with h | h
      · intro he
        rw [he] at h
        have hj0 : (1 : ℚ) ≤ (j : ℚ) := by exact_mod_cast hj
        linarith
      · intro he
        rw [he] at h
        have : (j : ℚ) ≤ (doc.pages.length : ℚ) := by
          simp only [zero_add] at hj'
          exact_mod_cast hj'
        linarith)]
    simp [saveAndClose]
  · unfold fitzFill fitzCore
    rw [hsingle]
    simp only [ok_bind]
    rw [fitzGroups]
    rw [pageOutOfRange_of_class hout (.num p) (by rw [pyKeyEq_num_iff]; rfl)]
    simp only [ok_bind, if_true]
    rw [fitzGroups]
    simp [saveAndClose]

/-- Witness for C3: a text annotation addressed to page 2 of a one-page
document (`page = pageCount + 1`) is silently skipped by both fill
implementations — the fill succeeds and the document is unaffected. -/
theorem out_of_range_page_dropped_witness :
    dictGet [("type", JVal.str "text"), ("page", JVal.num 2), ("text", JVal.str "x")]
      "page" (.num 1) = .num 2 ∧
    ((2 : ℚ) < 1 ∨ (((FDoc.mk [FPage.mk 612 792 []]).pages.length : ℚ) < 2)) ∧
    (hybridFill (FDoc.mk [FPage.mk 612 792 []])
        [.obj [("type", .str "text"), ("page", .num 2), ("text", .str "x")]]).2
      = .ok (FDoc.mk [FPage.mk 612 792 []], 1) ∧
    (fitzFill (FDoc.mk [FPage.mk 612 792 []])
        [.obj [("type", .str "text"), ("page", .num 2), ("text", .str "x")]]).2
      = .ok (FDoc.mk [FPage.mk 612 792 []], 1) := by
  have h := out_of_range_page_dropped (FDoc.mk [FPage.mk 612 792 []]) [] []
    (.obj [("type", .str "text"), ("page", .num 2), ("text", .str "x")])
    [("type", .str "text"), ("page", .num 2), ("text", .str "x")] 2
    rfl (by simp [dictGet, lookup_cons]) (by norm_num)
  exact ⟨by simp [dictGet, lookup_cons], by norm_num, h.2.2.1, h.2.2.2⟩

/-! ### C8: multi-line text handling in the two text renderers -/

/-- One reportlab canvas call issued by `_draw_text`. -/
inductive RLOp where
  | setFont (name : String) (size : ℚ)
  | setFillHex (hex : String)
  | drawString (x y : ℚ) (text : String)
  deriving DecidableEq, Repr

/-- `font_map.get(font_family, "Helvetica")` (source lines 1051-1059). -/
def fontMapGet (fam : String) : String :=
  if fam = "Helvetica" then "Helvetica"
  else if fam = "Arial" then "Helvetica"
  else if fam = "Times" then "Times-Roman"
  else if fam = "Times New Roman" then "Times-Roman"
  else if fam = "Courier" then "Courier"
  else if fam = "Courier New" then "Courier"
  else "Helvetica"

/-- `font_map.get(...)` on the `fontFamily` value: unhashable values raise;
hashable non-strings miss every key and give the default. -/
def rlBaseFont : JVal → Except PyErr String
  | .str s => .ok (fontMapGet s)
  | .arr _ => .error (.typeError "unhashable type")
  | .obj _ => .error (.typeError "unhashable type")
  | _ => .ok "Helvetica"

/-- Helper: is `pat` an infix of the character list? -/
def charsInfix (pat : List Char) : List Char → Bool
  | [] => pat.isEmpty
  | c :: rest => pat.isPrefixOf (c :: rest) || charsInfix pat rest

/-- Python `pat in s` substring test. -/
def strContainsStr (s pat : String) : Bool :=
  charsInfix pat.toList s.toList

/-- The bold/italic font ladder of `_draw_text` (source lines 1061-1084). -/
def rlStyledFont (base : String) (bold italic : Bool) : String :=
  if bold && italic then
    if strContainsStr base "Helvetica" then "Helvetica-BoldOblique"
    else if strContainsStr base "Times" then "Times-BoldItalic"
    else "Courier-BoldOblique"
  else if bold then
    if strContainsStr base "Helvetica" then "Helvetica-Bold"
    else if strContainsStr base "Times" then "Times-Bold"
    else "Courier-Bold"
  else if italic then
    if strContainsStr base "Helvetica" then "Helvetica-Oblique"
    else if strContainsStr base "Times" then "Times-Italic"
    else "Courier-Oblique"
  else base

/-- `HexColor(color)` with the surrounding `except Exception` fallback to
`HexColor("#000000")` (source lines 1088-1091): modelled as accepting
`#RRGGBB` strings (other spellings `HexColor` accepts fall back to black
here — the fallback makes any mis-modelled corner land on the default,
which is also what the source does on failure). -/
def rlColorOf : JVal → String
  | .str s =>
    if s.toList.length = 7 && s.toList.headD ' ' = '#' &&
        (s.toList.drop 1).all isHexDigitChar then s
    else "#000000"
  | _ => "#000000"

/-- `_draw_text(c, ann, x, y, width, height)` (source lines 1033-1099) as
the sequence of reportlab canvas calls it makes; `x`, `y` are the already
axis-flipped coordinates its caller `_draw_annotation` passes.  Line `i`
(0-based) of the newline-split text is drawn at
`text_y - i * font_size * 1.2` with `text_y = y - font_size`. -/
def drawTextRL (x y : ℚ) (ann : JVal) : Except PyErr (List RLOp) := do
  let fs ← annDict ann
  let textv := dictGet fs "text" (.str "")
  let fszv := dictGet fs "fontSize" (.num 12)
  let famv := dictGet fs "fontFamily" (.str "Helvetica")
  let colorv := dictGet fs "color" (.str "#000000")
  let bold := pyTruthy (dictGet fs "bold" (.bool false))
  let italic := pyTruthy (dictGet fs "italic" (.bool false))
  let base ← rlBaseFont famv
  let font := rlStyledFont base bold italic
  let fsz ← asNum fszv
  let hex := rlColorOf colorv
  let t ← asStr textv
  .ok ([.setFont font fsz, .setFillHex hex] ++
    (List.enum (pySplit t '\n')).map
      (fun pr => .drawString x ((y - fsz) - (pr.1 : ℚ) * fsz * 1.2) pr.2))

theorem mem_enumFrom_of_get {α : Type} :
    ∀ (l : List α) (n i : ℕ) (a : α), l.get? i = some a → (n + i, a) ∈ l.enumFrom n := by
  intro l
  induction l with
  | nil => intro n i a h; simp at h
  | cons x xs ih =>
    intro n i a h
    cases i with
    | zero =>
      simp only [List.get?, Option.some.injEq] at h
      subst h
      simp [List.enumFrom]
    | succ j =>
      simp only [List.get?] at h
      have hmem := ih (n + 1) j a h
      have heq : n + (j + 1) = (n + 1) + j := by omega
      rw [List.enumFrom, heq]
      exact List.mem_cons_of_mem _ hmem

theorem mem_enum_of_get {α : Type} {l : List α} {i : ℕ} {a : α}
    (h : l.get? i = some a) : (i, a) ∈ l.enum := by
  have hmem := mem_enumFrom_of_get l 0 i a h
  simpa [List.enum] using hmem

/-- The text of a fitz drawing call, if it is a text call. -/
def opText : DrawOp → Option String
  | .insertText _ t _ _ => some t
  | _ => none

/-- C8 counterexample: the claim fails for the renderers `fill` actually
uses.  Both the primary and the fallback fill implementation draw text via
`_draw_annotation_fitz`, whose text branch performs no newline splitting:
for the two-line text "a\nb" it issues one `insert_text` call carrying the
whole string, and no call in its output draws the second line "b" on its
own (at vertical offset `1 * fontSize * 1.2` or anywhere else). -/
theorem newline_offset_counterexample :
    drawAnnotationFitz 792 (.obj [("type", .str "text"), ("text", .str "a\nb"),
        ("fontSize", .num 10), ("x", .num 0), ("y", .num 0)])
      = .ok [.insertText ⟨0, 10⟩ "a\nb" 10 (0, 0, 0)] ∧
    ¬ ∃ op ∈ [DrawOp.insertText ⟨0, 10⟩ "a\nb" 10 (0, 0, 0)],
        opText op = some "b" := by
  constructor
  · simp [drawAnnotationFitz, annDict, dictGet, isStr, parse_black, pyAdd, asNum,
      asStr, lookup_cons, ok_bind, error_bind, pure_eq_ok]
  · rintro ⟨op, hmem, htext⟩
    simp only [List.mem_singleton] at hmem
    subst hmem
    simp only [opText, Option.some.injEq] at htext
    exact absurd htext (by decide)

/-- C8 as amended: the `fontSize * 1.2` per-line offset rule is
implemented only by the reportlab-based renderer `_draw_text` (reachable
only through `_fill_pdf_with_pypdf`, which `fill_pdf` never calls): it
splits the text on newline and draws line `i` at vertical offset
`i * fontSize * 1.2` below the first baseline.  The fitz-based renderer
used by both the primary and the fallback fill paths instead issues one
`insert_text` call with the entire string at baseline `y + fontSize`,
delegating any line spacing to the PDF library. -/
theorem newline_offset_amended
    (H x y ax ay fsz : ℚ) (t : String) (fs : List (String × JVal))
    (hty : fs.lookup "type" = some (.str "text"))
    (htext : fs.lookup "text" = some (.str t))
    (hfsz : fs.lookup "fontSize" = some (.num fsz))
    (hx : fs.lookup "x" = some (.num ax))
    (hy : fs.lookup "y" = some (.num ay))
    (hcol : fs.lookup "color" = none)
    (hfam : fs.lookup "fontFamily" = none)
    (hbold : fs.lookup "bold" = none)
    (hital : fs.lookup "italic" = none) :
    drawAnnotationFitz H (.obj fs)
      = .ok [.insertText ⟨ax, ay + fsz⟩ t fsz (0, 0, 0)] ∧
    drawTextRL x y (.obj fs)
      = .ok ([.setFont "Helvetica" fsz, .setFillHex "#000000"] ++
        (List.enum (pySplit t '\n')).map
          (fun pr => .drawString x ((y - fsz) - (pr.1 : ℚ) * fsz * 1.2) pr.2)) ∧
    (∀ i line, (pySplit t '\n').get? i = some line →
      ∃ ops, drawTextRL x y (.obj fs) = .ok ops ∧
        RLOp.drawString x ((y - fsz) - (i : ℚ) * fsz * 1.2) line ∈ ops) := by
  have hfitz : drawAnnotationFitz H (.obj fs)
      = .ok [.insertText ⟨ax, ay + fsz⟩ t fsz (0, 0, 0)] := by
    simp [drawAnnotationFitz, annDict, dictGet, isStr, parse_black, pyAdd, asNum,
      asStr, lookup_cons, ok_bind, error_bind, pure_eq_ok, hty, htext, hfsz, hx, hy,
      hcol]
  have hrl : drawTextRL x y (.obj fs)
      = .ok ([.setFont "Helvetica" fsz, .setFillHex "#000000"] ++
        (List.enum (pySplit t '\n')).map
          (fun pr => .drawString x ((y - fsz) - (pr.1 : ℚ) * fsz * 1.2) pr.2)) := by
    simp [drawTextRL, annDict, dictGet, rlBaseFont, fontMapGet, rlStyledFont,
      rlColorOf, pyTruthy, asNum, asStr, ok_bind, error_bind, pure_eq_ok,
      htext, hfsz, hcol, hfam, hbold, hital]
  refine ⟨hfitz, hrl, fun i line hget => ⟨_, hrl, ?_⟩⟩
  exact List.mem_append_right _ (List.mem_map.mpr ⟨(i, line), mem_enum_of_get hget, rfl⟩)

/-- Witness for the amended C8: the two-line text "a\nb" at fontSize 10.
The fitz renderer emits one whole-string call; the reportlab renderer
emits one drawString per line, the second offset by `1 * 10 * 1.2`. -/
theorem newline_offset_amended_witness :
    drawAnnotationFitz 792 (.obj [("type", .str "text"), ("text", .str "a\nb"),
        ("fontSize", .num 10), ("x", .num 3), ("y", .num 4)])
      = .ok [.insertText ⟨3, 4 + 10⟩ "a\nb" 10 (0, 0, 0)] ∧
    drawTextRL 3 100 (.obj [("type", .str "text"), ("text", .str "a\nb"),
        ("fontSize", .num 10), ("x", .num 3), ("y", .num 4)])
      = .ok [.setFont "Helvetica" 10, .setFillHex "#000000",
             .drawString 3 (100 - 10) "a",
             .drawString 3 ((100 - 10) - 1 * 10 * 1.2) "b"] := by
  have h := newline_offset_amended 792 3 100 3 4 10 "a\nb"
    [("type", .str "text"), ("text", .str "a\nb"),
     ("fontSize", .num 10), ("x", .num 3), ("y", .num 4)]
    (by simp [lookup_cons]) (by simp [lookup_cons]) (by simp [lookup_cons])
    (by simp [lookup_cons]) (by simp [lookup_cons]) (by simp [lookup_cons])
    (by simp [lookup_cons]) (by simp [lookup_cons]) (by simp [lookup_cons])
  refine ⟨h.1, ?_⟩
  rw [h.2.1]
  have hsplit : pySplit "a\nb" '\n' = ["a", "b"] := by
    simp [pySplit, splitCharsOn, consHead]
  rw [hsplit]
  simp [List.enum]

/-! ### C9: stamp border and label share one rotation -/

/-- The relative corner offsets of the stamp's box (source lines 523-530). -/
def stampCorners (halfW halfH : ℚ) : List (ℚ × ℚ) :=
  [(-halfW, -halfH), (halfW, -halfH), (halfW, halfH), (-halfW, halfH)]

/-- The border polygon corners after the source's rotation (lines 533-537):
`rx = cx*cos - cy*sin + center_x`, `ry = cx*sin + cy*cos + center_y`,
where `(cosA, sinA) = (math.cos θ, math.sin θ)` of the stamp's rotation
angle (lines 483-485). -/
def stampRotatedCorners (cosA sinA cx cy halfW halfH : ℚ) : List Pt :=
  (stampCorners halfW halfH).map
    (fun c => ⟨c.1 * cosA - c.2 * sinA + cx, c.1 * sinA + c.2 * cosA + cy⟩)

/-- A fitz matrix `(a, b, c, d)` (translation-free). -/
structure FitzMat where
  a : ℚ
  b : ℚ
  c : ℚ
  d : ℚ

/-- The `fitz.Matrix(cos_a, -sin_a, sin_a, cos_a, 0, 0)` passed as the
TextWriter morph for the stamp label (source line 562). -/
def stampTextMatrix (cosA sinA : ℚ) : FitzMat := ⟨cosA, -sinA, sinA, cosA⟩

/-- PyMuPDF's point transform convention:
`x' = x*a + y*c`, `y' = x*b + y*d`. -/
def matApply (m : FitzMat) (v : Pt) : Pt :=
  ⟨v.x * m.a + v.y * m.c, v.x * m.b + v.y * m.d⟩

/-- Model of `TextWriter.write_text(page, ..., morph=(fixpoint, matrix))`:
PyMuPDF maps the fixpoint into PDF (bottom-up, `y ↦ H - y`) coordinates
and applies the matrix there with the fixpoint held fixed, `H` being the
page height; the glyph at device point `v` lands at the returned device
point. -/
def morphDevice (H : ℚ) (fix : Pt) (m : FitzMat) (v : Pt) : Pt :=
  ⟨fix.x + (matApply m ⟨v.x - fix.x, (H - v.y) - (H - fix.y)⟩).x,
   H - ((H - fix.y) + (matApply m ⟨v.x - fix.x, (H - v.y) - (H - fix.y)⟩).y)⟩

/-- The border's rotation, as a transform of absolute device points about
the stamp's center. -/
def rotAboutCenter (cosA sinA : ℚ) (center : Pt) (v : Pt) : Pt :=
  ⟨(v.x - center.x) * cosA - (v.y - center.y) * sinA + center.x,
   (v.x - center.x) * sinA + (v.y - center.y) * cosA + center.y⟩

/-- C9: the stamp's border polygon and its label text undergo one and the
same rotation: for every rotation angle (every cos/sin pair), the morph
the source passes for the text — `Matrix(cos, -sin, sin, cos)` about the
box center — acts on device points exactly as the rotation the source
applies to the border corners, about that same center and in the same
rotational sense; and the border corners are exactly the images of the
box's corner points under that common rotation. -/
theorem stamp_border_text_same_rotation
    (cosA sinA cx cy H halfW halfH : ℚ) :
    (∀ v : Pt, morphDevice H ⟨cx, cy⟩ (stampTextMatrix cosA sinA) v
      = rotAboutCenter cosA sinA ⟨cx, cy⟩ v) ∧
    stampRotatedCorners cosA sinA cx cy halfW halfH
      = (stampCorners halfW halfH).map
          (fun c => rotAboutCenter cosA sinA ⟨cx, cy⟩ ⟨cx + c.1, cy + c.2⟩) := by
  constructor
  · intro v
    unfold morphDevice matApply stampTextMatrix rotAboutCenter
    simp only [Pt.mk.injEq]
    constructor <;> ring
  · unfold stampRotatedCorners stampCorners rotAboutCenter
    simp only [List.map_cons, List.map_nil, List.cons.injEq, Pt.mk.injEq, and_true]
    refine ⟨⟨?_, ?_⟩, ⟨?_, ?_⟩, ⟨?_, ?_⟩, ⟨?_, ?_⟩⟩ <;> ring

end PdfFiller
